import Mathlib

/-!
# Verification of the step-calorie-counter aggregation engine

Shallow embedding of `server/src/server.js` (Express API of the
step-calorie-counter repository) and proofs about the claims of its
specification.

Modelling conventions:

* JavaScript numbers are modelled as exact rationals (`ℚ`).  The raw value of
  a JSON field that the code feeds through `Number(...)` is modelled by
  `JSNumber`, which records either the finite numeric image or the fact that
  the conversion produced `NaN`/`±Infinity`.
* A timestamp value is modelled by `Timestamp`: the raw string stored in the
  sample (used by `===` comparisons in `findMatchingIndex`) together with the
  result of `new Date(raw)` — `some ms` (milliseconds since the epoch) for a
  parseable date, `none` for an Invalid Date.
* `new Date(ms).toISOString().split('T')[0]` produces the UTC calendar day
  `YYYY-MM-DD`; we identify that string with its day number
  `⌊ms / 86400000⌋ : ℤ`, which is in bijection with it and has the same
  equality and order.  The composite map key `` `${deviceId}-${day}` `` of
  `buildDailyTotals` is modelled as the pair `(deviceId, day)`.
* `.toISOString()` on an Invalid Date throws a `RangeError`; fallible
  computations therefore live in `Except String`.
* JavaScript `Map`s (insertion-ordered, `set` updates in place) are modelled
  by association lists (`aset` / `alookup` below).
-/

namespace SCC

/-- The image of a JSON value under JavaScript `Number(...)`:
either a finite number or a non-finite result (`NaN`, `±Infinity`). -/
inductive JSNumber where
  | finite (q : ℚ)
  | nan
  | posInf
  | negInf
deriving DecidableEq

/-- `coerceNumber` (server.js:53-56): `Number.isFinite(parsed) ? parsed : 0`
(every call site uses the default fallback `0`). -/
def coerceNumber (value : JSNumber) : ℚ :=
  match value with
  | .finite q => q
  | _ => 0

/-- A timestamp value: the raw string plus the result of `new Date(raw)`
(`none` models an Invalid Date). -/
structure Timestamp where
  raw : String
  parsed : Option ℤ
deriving DecidableEq

/-- Milliseconds per UTC day. -/
def msPerDay : ℤ := 86400000

/-- The UTC calendar day of a millisecond timestamp, as produced by
`toISOString().split('T')[0]` (identified with its day number). -/
def jsDay (ms : ℤ) : ℤ := Int.fdiv ms msPerDay

/-- `dateKey` (server.js:108): `new Date(value).toISOString().split('T')[0]`.
`toISOString` throws a `RangeError` when the date is invalid. -/
def dateKey (parsed : Option ℤ) : Except String ℤ :=
  match parsed with
  | none => .error "RangeError: Invalid time value"
  | some ms => .ok (jsDay ms)

/-- JavaScript `new Date(a) > new Date(b)`: comparison of the time values;
any comparison involving `NaN` (an invalid date) is `false`. -/
def jsDateGt (a b : Option ℤ) : Bool :=
  match a, b with
  | some x, some y => decide (y < x)
  | _, _ => false

/-- The `device` part of a stored sample (server.js:61-65). -/
structure Device where
  deviceId : String
  model : String
  osVersion : String
deriving DecidableEq

/-- The `sample` part of a stored sample (server.js:66-72). -/
structure SampleData where
  steps : ℚ
  distance : ℚ
  calories : ℚ
  start : Timestamp
  end_ : Timestamp
deriving DecidableEq

/-- One stored metrics entry (server.js:58-73). -/
structure Sample where
  id : String
  receivedAt : String
  device : Device
  sample : SampleData
deriving DecidableEq

/-- The `device` object of an ingestion payload; each field may be absent. -/
structure DevicePayload where
  deviceId : Option String
  model : Option String
  osVersion : Option String
deriving DecidableEq

/-- The `sample` object of an ingestion payload.  Numeric fields are
modelled by their `Number(...)` image, timestamps may be absent. -/
structure SamplePayload where
  steps : JSNumber
  distance : JSNumber
  calories : JSNumber
  start : Option Timestamp
  end_ : Option Timestamp
deriving DecidableEq

/-- An ingestion request body; `device` and `sample` may each be absent. -/
structure Payload where
  device : Option DevicePayload
  sample : Option SamplePayload
deriving DecidableEq

/-- `payload?.sample?.steps` as fed to `coerceNumber`: an absent `sample`
object yields `undefined`, whose `Number` image is `NaN`. -/
def rawSteps (payload : Payload) : JSNumber :=
  match payload.sample with
  | some sp => sp.steps
  | none => .nan

/-- `payload?.sample?.distance` as fed to `coerceNumber`. -/
def rawDistance (payload : Payload) : JSNumber :=
  match payload.sample with
  | some sp => sp.distance
  | none => .nan

/-- `payload?.sample?.calories` as fed to `coerceNumber`. -/
def rawCalories (payload : Payload) : JSNumber :=
  match payload.sample with
  | some sp => sp.calories
  | none => .nan

/-- `normalizeSample` (server.js:58-73).  `newId` models `randomUUID()` and
`now` models `new Date()` at the moment of the call (`now.raw` is its
ISO string, `now.parsed` its time value). -/
def normalizeSample (payload : Payload) (newId : String) (now : Timestamp) : Sample :=
  { id := newId
    receivedAt := now.raw
    device :=
      { deviceId := ((payload.device).bind DevicePayload.deviceId).getD "unknown"
        model := ((payload.device).bind DevicePayload.model).getD "unknown"
        osVersion := ((payload.device).bind DevicePayload.osVersion).getD "unknown" }
    sample :=
      { steps := coerceNumber (rawSteps payload)
        distance := coerceNumber (rawDistance payload)
        calories := coerceNumber (rawCalories payload)
        start := ((payload.sample).bind SamplePayload.start).getD now
        end_ := ((payload.sample).bind SamplePayload.end_).getD now } }

/-- The goal configuration (server.js:20): `{ steps, calories }`. -/
structure Goals where
  steps : ℚ
  calories : ℚ
deriving DecidableEq

/-- The default goal configuration `{ steps: 8000, calories: 400 }`. -/
def defaultGoals : Goals := { steps := 8000, calories := 400 }

/-- `PUT /api/goals` (server.js:299-308).  Returns the goal configuration
after the call together with `true` for success (HTTP 200) or `false` for
the 400 validation rejection, which leaves the goals unchanged.  On success
the stored steps value is `Math.round(nextSteps)`. -/
def putGoals (goals : Goals) (nextSteps nextCalories : JSNumber) : Goals × Bool :=
  match nextSteps, nextCalories with
  | .finite s, .finite c =>
    if 0 < s ∧ 0 < c then ({ steps := ((round s : ℤ) : ℚ), calories := c }, true)
    else (goals, false)
  | _, _ => (goals, false)

/-! ## Insertion-ordered maps (JavaScript `Map`) -/

/-- Lookup in an insertion-ordered association list (`Map.prototype.get`). -/
def alookup {κ β : Type} [DecidableEq κ] : List (κ × β) → κ → Option β
  | [], _ => none
  | (k', v') :: rest, k => if k' = k then some v' else alookup rest k

/-- `Map.prototype.set`: update the value in place when the key is present
(keeping its position), otherwise append the new entry. -/
def aset {κ β : Type} [DecidableEq κ] : List (κ × β) → κ → β → List (κ × β)
  | [], k, v => [(k, v)]
  | (k', v') :: rest, k, v =>
    if k' = k then (k, v) :: rest else (k', v') :: aset rest k v

/-! ## The aggregation engine (server.js:108-256) -/

/-- Per-day totals `{ steps, calories }`. -/
structure Totals where
  steps : ℚ
  calories : ℚ
deriving DecidableEq

/-- The daily-aggregate map, keyed by UTC day. -/
abbrev DayMap := List (ℤ × Totals)

/-- The intermediate `latestPerDeviceDay` map of `buildDailyTotals`,
keyed by `(deviceId, day)` (the JS composite string key). -/
abbrev GroupMap := List ((String × ℤ) × Sample)

/-- One step of the first pass of `buildDailyTotals` (server.js:112-119):
key the sample by `(deviceId, day(end))` and keep the entry with the
strictly later `end` (an incomparable or equal `end` keeps the incumbent). -/
def pass1Step (m : GroupMap) (item : Sample) : Except String GroupMap := do
  let day ← dateKey item.sample.end_.parsed
  let key := (item.device.deviceId, day)
  match alookup m key with
  | none => pure (aset m key item)
  | some existing =>
    if jsDateGt item.sample.end_.parsed existing.sample.end_.parsed then
      pure (aset m key item)
    else
      pure m

/-- One step of the second pass of `buildDailyTotals` (server.js:121-128):
add the representative sample's measurements into its day's totals. -/
def pass2Step (t : DayMap) (item : Sample) : Except String DayMap := do
  let day ← dateKey item.sample.end_.parsed
  let existing := (alookup t day).getD ⟨0, 0⟩
  pure (aset t day
    ⟨existing.steps + item.sample.steps, existing.calories + item.sample.calories⟩)

/-- `buildDailyTotals` (server.js:110-131).  The second pass iterates the
values of `latestPerDeviceDay` in insertion order (`Map.forEach`). -/
def buildDailyTotals (list : List Sample) : Except String DayMap := do
  let latest ← list.foldlM pass1Step []
  (latest.map Prod.snd).foldlM pass2Step []

/-- `totals.steps >= goals.steps && totals.calories >= goals.calories`
(server.js:143). -/
def meetsGoal (goals : Goals) (t : Totals) : Bool :=
  decide (goals.steps ≤ t.steps) && decide (goals.calories ≤ t.calories)

/-- The body of the `while` loop of `computeStreak`, with explicit fuel.
The loop runs at most once per distinct key of `dailyTotals` (the cursor
days are strictly decreasing and each must have an entry), so any fuel
larger than the map's size computes the loop's result exactly. -/
def streakAux (dailyTotals : DayMap) (goals : Goals) : ℕ → ℤ → ℕ
  | 0, _ => 0
  | fuel + 1, cursor =>
    match alookup dailyTotals cursor with
    | none => 0
    | some t =>
      if meetsGoal goals t then streakAux dailyTotals goals fuel (cursor - 1) + 1
      else 0

/-- `computeStreak` (server.js:133-152), starting from `today`'s UTC day.
The original reads the goal configuration from the module-level `goals`
and today's day from `new Date()`; both are passed explicitly here. -/
def computeStreak (dailyTotals : DayMap) (goals : Goals) (today : ℤ) : ℕ :=
  streakAux dailyTotals goals (dailyTotals.length + 1) today

/-- One `{ date, steps, calories }` entry of `buildInsights`. -/
structure Entry where
  date : ℤ
  steps : ℚ
  calories : ℚ
deriving DecidableEq

/-- The `insights` object.  The averages are `Math.round`ed integers. -/
structure Insights where
  averageSteps7d : ℤ
  averageCalories7d : ℤ
  goalComplianceRate : ℚ
  bestDay : Option Entry
deriving DecidableEq

/-- The JS sort comparator `(a, b) => new Date(a.date) - new Date(b.date)`:
ascending by date. -/
def entryLE (a b : Entry) : Prop := a.date ≤ b.date

instance : DecidableRel entryLE := fun a b => Int.decLe a.date b.date

instance : IsTotal Entry entryLE := ⟨fun a b => Int.le_total a.date b.date⟩

instance : IsTrans Entry entryLE := ⟨fun _ _ _ => Int.le_trans⟩

/-- The step function of the `bestDay` reduce (server.js:184-189): keep the
incumbent unless the new entry's steps are strictly greater. -/
def bestStep (best : Option Entry) (e : Entry) : Option Entry :=
  match best with
  | none => some e
  | some b => if b.steps < e.steps then some e else some b

/-- `buildInsights` (server.js:154-197).  `today` is the current UTC day
(`new Date()` at UTC midnight is day `today`; the cutoff is `today - 6`). -/
def buildInsights (goals : Goals) (today : ℤ) (dailyTotals : DayMap) : Insights :=
  let entries : List Entry := dailyTotals.map fun p => ⟨p.1, p.2.steps, p.2.calories⟩
  if entries.isEmpty then ⟨0, 0, 0, none⟩
  else
    let sorted := List.insertionSort entryLE entries
    let cutoff : ℤ := today - 6
    let window := sorted.filter fun e => decide (cutoff ≤ e.date)
    let divisor : ℚ := if window.length = 0 then 1 else (window.length : ℚ)
    let avgSteps := (window.map Entry.steps).sum / divisor
    let avgCalories := (window.map Entry.calories).sum / divisor
    let complianceDays :=
      (window.filter fun e =>
        decide (goals.steps ≤ e.steps) && decide (goals.calories ≤ e.calories)).length
    let bestDay := sorted.foldl bestStep none
    ⟨round avgSteps, round avgCalories,
      if window.length = 0 then 0 else (complianceDays : ℚ) / (window.length : ℚ),
      bestDay⟩

/-- `linearForecast` (server.js:199-221): ordinary least squares over
`x = 0..n-1`, evaluated at `x = n` and floored at `0`. -/
def linearForecast (values : List ℚ) : ℚ :=
  if values.length = 0 then 0
  else if values.length < 2 then values.getLastD 0
  else
    let n : ℚ := (values.length : ℚ)
    let sumX : ℚ := (values.enum.map fun p => ((p.1 : ℚ))).sum
    let sumY : ℚ := (values.enum.map fun p => p.2).sum
    let sumXY : ℚ := (values.enum.map fun p => (p.1 : ℚ) * p.2).sum
    let sumXX : ℚ := (values.enum.map fun p => (p.1 : ℚ) * (p.1 : ℚ)).sum
    let denominator := n * sumXX - sumX * sumX
    let slope := if denominator = 0 then 0 else (n * sumXY - sumX * sumY) / denominator
    let intercept := (sumY - slope * sumX) / n
    let prediction := intercept + slope * n
    max 0 prediction

/-- The `predictions` object of the summary payload. -/
structure Predictions where
  steps : ℤ
  calories : ℤ
  basisDays : ℕ
deriving DecidableEq

/-- The sort of daily-aggregate entries by date (server.js:228-230). -/
def pairLE (a b : ℤ × Totals) : Prop := a.1 ≤ b.1

instance : DecidableRel pairLE := fun a b => Int.decLe a.1 b.1

instance : IsTotal (ℤ × Totals) pairLE := ⟨fun a b => Int.le_total a.1 b.1⟩

instance : IsTrans (ℤ × Totals) pairLE := ⟨fun _ _ _ => Int.le_trans⟩

/-- `sortedEntries.slice(-14)` (server.js:228-231): the most recent up to 14
daily aggregates in ascending date order. -/
def recentEntries (dailyTotals : DayMap) : DayMap :=
  let sortedEntries := List.insertionSort pairLE dailyTotals
  sortedEntries.drop (sortedEntries.length - 14)

/-- The `predictions` part of `buildSummaryPayload` (server.js:231-238). -/
def buildPredictions (dailyTotals : DayMap) : Predictions :=
  { steps := round (linearForecast ((recentEntries dailyTotals).map fun p => p.2.steps))
    calories := round (linearForecast ((recentEntries dailyTotals).map fun p => p.2.calories))
    basisDays := (recentEntries dailyTotals).length }

/-- The `today` object of the summary payload (server.js:242-249). -/
structure TodayProgress where
  steps : ℚ
  calories : ℚ
  stepGoal : ℚ
  calorieGoal : ℚ
  stepProgress : ℚ
  calorieProgress : ℚ
deriving DecidableEq

/-- The full summary payload (server.js:240-255). -/
structure SummaryPayload where
  goals : Goals
  today : TodayProgress
  streakDays : ℕ
  insights : Insights
  predictions : Predictions
deriving DecidableEq

/-- `buildSummaryPayload` (server.js:223-256).  `today` is the current UTC
day.  `goals.steps ? x / goals.steps : 0` tests JS falsiness, i.e. `0`. -/
def buildSummaryPayload (goals : Goals) (today : ℤ) (metrics : List Sample) :
    Except String SummaryPayload := do
  let dailyTotals ← buildDailyTotals metrics
  let todayTotals := (alookup dailyTotals today).getD ⟨0, 0⟩
  let insights := buildInsights goals today dailyTotals
  let predictions := buildPredictions dailyTotals
  pure
    { goals := goals
      today :=
        { steps := todayTotals.steps
          calories := todayTotals.calories
          stepGoal := goals.steps
          calorieGoal := goals.calories
          stepProgress := if goals.steps = 0 then 0 else todayTotals.steps / goals.steps
          calorieProgress :=
            if goals.calories = 0 then 0 else todayTotals.calories / goals.calories }
      streakDays := computeStreak dailyTotals goals today
      insights := insights
      predictions := predictions }

/-! ## The metrics store mutators (server.js:324-352) -/

/-- The dedup-key predicate of `findMatchingIndex` (server.js:75-81):
`===` on `deviceId`, `sample.start` and `sample.end` (string values). -/
def sampleKeyMatches (item incoming : Sample) : Bool :=
  item.device.deviceId == incoming.device.deviceId &&
  item.sample.start.raw == incoming.sample.start.raw &&
  item.sample.end_.raw == incoming.sample.end_.raw

/-- `Array.prototype.findIndex`, returning `none` instead of `-1`. -/
def findIdxAux {α : Type} (p : α → Bool) : List α → Option ℕ
  | [] => none
  | a :: rest => if p a then some 0 else (findIdxAux p rest).map (· + 1)

/-- `findMatchingIndex` (server.js:75-81). -/
def findMatchingIndex (metrics : List Sample) (incoming : Sample) : Option ℕ :=
  findIdxAux (fun item => sampleKeyMatches item incoming) metrics

/-- The response of `POST /api/metrics`: the message and the reported id. -/
structure IngestReply where
  message : String
  id : String
deriving DecidableEq

/-- `POST /api/metrics` (server.js:324-346).  Returns the HTTP outcome
(`.error` is the 400 `ValidationError` for a missing `sample` object)
together with the metrics store after the call. -/
def postMetrics (metrics : List Sample) (body : Payload) (newId : String)
    (now : Timestamp) : Except String IngestReply × List Sample :=
  match body.sample with
  | none => (.error "sample payload is required", metrics)
  | some _ =>
    let sample := normalizeSample body newId now
    match findMatchingIndex metrics sample with
    | some idx =>
      match metrics[idx]? with
      | some existing =>
        (.ok ⟨"updated", existing.id⟩,
          metrics.set idx
            { existing with receivedAt := sample.receivedAt, sample := sample.sample })
      | none => (.ok ⟨"updated", ""⟩, metrics) -- unreachable: a found index is in range
    | none => (.ok ⟨"stored", sample.id⟩, metrics ++ [sample])

/-! ## Concrete inputs used by counterexamples and witnesses -/

/-- A timestamp with a parseable date. -/
def okTs (s : String) (ms : ℤ) : Timestamp := ⟨s, some ms⟩

/-- A timestamp whose string does not parse (`new Date(raw)` is invalid). -/
def badTs (s : String) : Timestamp := ⟨s, none⟩

/-- An ingestion payload whose `steps` value is the finite number `-5`. -/
def negPayload : Payload :=
  { device := some ⟨some "dev", none, none⟩
    sample := some
      { steps := .finite (-5), distance := .finite 2, calories := .finite 3
        start := some (okTs "2024-01-01T00:00:00.000Z" 0)
        end_ := some (okTs "2024-01-01T01:00:00.000Z" 3600000) } }

/-- A single goal update as folded by repeated `PUT /api/goals` calls. -/
def applyGoalUpdate (g : Goals) (u : JSNumber × JSNumber) : Goals :=
  (putGoals g u.1 u.2).1

/-- A day qualifies for the streak when its aggregate exists and meets both
goal thresholds (the loop condition of `computeStreak`). -/
def qualifiesB (dailyTotals : DayMap) (goals : Goals) (d : ℤ) : Bool :=
  match alookup dailyTotals d with
  | none => false
  | some t => meetsGoal goals t

/-! ## Spec-side ordinary-least-squares formulas (spec §4.5)

These definitions follow the specification's words — `Σx`, `Σy`, `Σxy`,
`Σx²` over `x = 0..n-1`, slope `0` when the denominator is zero — and are
compared against `linearForecast`, which computes the same sums by a single
indexed pass. -/

/-- Spec: `Σx` over `x = 0..n-1`. -/
def specSumX (n : ℕ) : ℚ := ((List.range n).map fun i : ℕ => (i : ℚ)).sum

/-- Spec: `Σy` over the series. -/
def specSumY (values : List ℚ) : ℚ :=
  ((List.range values.length).map fun i : ℕ => values.getD i 0).sum

/-- Spec: `Σxy` over the series. -/
def specSumXY (values : List ℚ) : ℚ :=
  ((List.range values.length).map fun i : ℕ => (i : ℚ) * values.getD i 0).sum

/-- Spec: `Σx²` over `x = 0..n-1`. -/
def specSumXX (n : ℕ) : ℚ := ((List.range n).map fun i : ℕ => (i : ℚ) * (i : ℚ)).sum

/-- Spec: the OLS denominator `n·Σx² − (Σx)²`. -/
def specDenom (values : List ℚ) : ℚ :=
  (values.length : ℚ) * specSumXX values.length -
    specSumX values.length * specSumX values.length

/-- Spec: the OLS slope, taken as `0` when the denominator is zero. -/
def specSlope (values : List ℚ) : ℚ :=
  if specDenom values = 0 then 0
  else ((values.length : ℚ) * specSumXY values -
    specSumX values.length * specSumY values) / specDenom values

/-- Spec: the OLS intercept `(Σy − slope·Σx) / n`. -/
def specIntercept (values : List ℚ) : ℚ :=
  (specSumY values - specSlope values * specSumX values.length) / (values.length : ℚ)

/-- The aggregate entries whose day is within the window the code actually
uses: all days `≥ today − 6`, with no upper bound. -/
def windowAggregates (m : DayMap) (today : ℤ) : DayMap :=
  m.filter fun p => decide (today - 6 ≤ p.1)

/-- An ingestion payload with device `devA` and window `("S", "E")`. -/
def dedupPayload : Payload :=
  { device := some ⟨some "devA", none, none⟩
    sample := some
      { steps := .finite 100, distance := .finite 1, calories := .finite 10
        start := some (okTs "S" 0), end_ := some (okTs "E" 3600000) } }

/-- A second payload with the same `(deviceId, start, end)` triple but
different measurement values. -/
def dedupPayload2 : Payload :=
  { device := some ⟨some "devA", none, none⟩
    sample := some
      { steps := .finite 200, distance := .finite 2, calories := .finite 20
        start := some (okTs "S" 0), end_ := some (okTs "E" 3600000) } }

/-! ## Pure views of the two aggregation passes

`pass1Step`/`pass2Step` can only throw on a sample whose `end` does not
parse; on parseable samples they agree with the following pure steps, and
the claims about aggregate contents are proved through them. -/

/-- Whether `dateKey(item.sample.end)` succeeds (no `RangeError`). -/
def hasParseableEnd (item : Sample) : Bool := item.sample.end_.parsed.isSome

/-- The UTC day of a sample's `end` (defaulting the time value to `0`;
only used on samples whose `end` parses). -/
def endDay (item : Sample) : ℤ := jsDay (item.sample.end_.parsed.getD 0)

/-- Pure version of `pass1Step`, coinciding with it on parseable samples. -/
def pass1StepP (m : GroupMap) (item : Sample) : GroupMap :=
  match alookup m (item.device.deviceId, endDay item) with
  | none => aset m (item.device.deviceId, endDay item) item
  | some existing =>
    if jsDateGt item.sample.end_.parsed existing.sample.end_.parsed then
      aset m (item.device.deviceId, endDay item) item
    else m

/-- Pure version of `pass2Step`, coinciding with it on parseable samples. -/
def pass2StepP (t : DayMap) (item : Sample) : DayMap :=
  let existing := (alookup t (endDay item)).getD ⟨0, 0⟩
  aset t (endDay item)
    ⟨existing.steps + item.sample.steps, existing.calories + item.sample.calories⟩

/-- The samples of the store ending on UTC day `D` (parseable `end` only). -/
def samplesOn (list : List Sample) (D : ℤ) : List Sample :=
  list.filter fun it => hasParseableEnd it && decide (endDay it = D)

/-- The distinct device ids having samples ending on day `D`, in order of
first appearance. -/
def devicesOn (list : List Sample) (D : ℤ) : List String :=
  ((samplesOn list D).map fun it => it.device.deviceId).dedup

/-- One step of "keep the later-ending sample": the incumbent stays unless
the new sample's `end` is strictly later (the code's strict `>`). -/
def latestStep (acc : Option Sample) (it : Sample) : Option Sample :=
  match acc with
  | none => some it
  | some b =>
    if jsDateGt it.sample.end_.parsed b.sample.end_.parsed then some it else some b

/-- The representative sample of device `dev` on day `D`: the sample with
the maximal `end` among that device's samples ending on `D` (the earliest
such sample wins exact ties). -/
def latestFor (list : List Sample) (D : ℤ) (dev : String) : Option Sample :=
  ((samplesOn list D).filter fun it => it.device.deviceId == dev).foldl latestStep none

/-- The steps of the representative sample (`0` when the device has none). -/
def latestSteps (list : List Sample) (D : ℤ) (dev : String) : ℚ :=
  match latestFor list D dev with
  | some s => s.sample.steps
  | none => 0

/-- The calories of the representative sample. -/
def latestCalories (list : List Sample) (D : ℤ) (dev : String) : ℚ :=
  match latestFor list D dev with
  | some s => s.sample.calories
  | none => 0

/-- A placeholder sample (never observed through `latestFor` at members of
`devicesOn`). -/
def defaultSample : Sample :=
  ⟨"", "", ⟨"", "", ""⟩, ⟨0, 0, 0, ⟨"", none⟩, ⟨"", none⟩⟩⟩

/-- The representative sample as a total function. -/
def latestGet (list : List Sample) (D : ℤ) (dev : String) : Sample :=
  (latestFor list D dev).getD defaultSample

/-- A stored sample with the given device, measurements and `end` time. -/
def mkSample (dev : String) (steps cal : ℚ) (endMs : ℤ) : Sample :=
  { id := "id-" ++ dev
    receivedAt := "r"
    device := ⟨dev, "m", "o"⟩
    sample := ⟨steps, 0, cal, okTs "s" 0, okTs "e" endMs⟩ }

/-- A stored sample whose `end` string does not parse (`new Date` is an
Invalid Date, so `dateKey` throws a `RangeError`). -/
def badEndSample : Sample :=
  { id := "bad"
    receivedAt := "r"
    device := ⟨"devX", "m", "o"⟩
    sample := ⟨1, 1, 1, okTs "s" 0, badTs "not-a-date"⟩ }

/-- A stored sample whose `start` does not parse but whose `end` does: the
engine never parses `start`, so this sample is harmless. -/
def badStartSample : Sample :=
  { id := "bs"
    receivedAt := "r"
    device := ⟨"devY", "m", "o"⟩
    sample := ⟨50, 1, 5, badTs "garbage", okTs "e" 7200000⟩ }

/-- The first pass of `buildDailyTotals` as a pure fold. -/
def pass1Map (list : List Sample) : GroupMap := list.foldl pass1StepP []

/-- The representative samples kept by the first pass, in insertion order
(the values iterated by the second pass). -/
def pass1Values (list : List Sample) : List Sample := (pass1Map list).map Prod.snd

/-- The kept representatives ending on day `D`. -/
def dayGroup (list : List Sample) (D : ℤ) : List Sample :=
  (pass1Values list).filter fun it => decide (endDay it = D)

/-- One representative per device of day `D`, in first-appearance order. -/
def deviceReps (list : List Sample) (D : ℤ) : List Sample :=
  (devicesOn list D).map (latestGet list D)

/-! ## Map lemmas -/

section MapLemmas

variable {κ β : Type} [DecidableEq κ]

theorem alookup_aset_self (m : List (κ × β)) (k : κ) (v : β) :
    alookup (aset m k v) k = some v := by
  induction m with
  | nil => simp [aset, alookup]
  | cons p rest ih =>
    by_cases h : p.1 = k
    · simp [aset, h, alookup]
    · simp [aset, h, alookup, ih]

theorem alookup_aset_ne (m : List (κ × β)) (k k' : κ) (v : β) (h : k' ≠ k) :
    alookup (aset m k v) k' = alookup m k' := by
  have hk : k ≠ k' := Ne.symm h
  induction m with
  | nil => simp [aset, alookup, hk]
  | cons p rest ih =>
    obtain ⟨k₀, v₀⟩ := p
    by_cases hp : k₀ = k
    · subst hp
      simp [aset, alookup, hk]
    · simp only [aset, if_neg hp]
      by_cases hp' : k₀ = k'
      · simp [alookup, hp']
      · simp [alookup, hp', ih]

theorem keys_aset (m : List (κ × β)) (k : κ) (v : β) :
    (aset m k v).map Prod.fst =
      if k ∈ m.map Prod.fst then m.map Prod.fst else m.map Prod.fst ++ [k] := by
  induction m with
  | nil => simp [aset]
  | cons p rest ih =>
    obtain ⟨k₀, v₀⟩ := p
    by_cases h : k₀ = k
    · subst h
      simp [aset]
    · have h' : ¬k = k₀ := fun hh => h hh.symm
      simp only [aset, if_neg h, List.map_cons, ih]
      by_cases hk : k ∈ rest.map Prod.fst
      · simp [hk, h']
      · simp [hk, h']

theorem nodupKeys_aset (m : List (κ × β)) (k : κ) (v : β)
    (h : (m.map Prod.fst).Nodup) : ((aset m k v).map Prod.fst).Nodup := by
  rw [keys_aset]
  by_cases hk : k ∈ m.map Prod.fst
  · simpa [hk] using h
  · rw [if_neg hk]
    exact List.Nodup.append h (List.nodup_singleton k)
      (by simpa [List.disjoint_singleton] using hk)

theorem alookup_eq_none_iff (m : List (κ × β)) (k : κ) :
    alookup m k = none ↔ k ∉ m.map Prod.fst := by
  induction m with
  | nil => simp [alookup]
  | cons p rest ih =>
    obtain ⟨k₀, v₀⟩ := p
    by_cases h : k₀ = k
    · simp [alookup, h]
    · have h' : ¬k = k₀ := fun hh => h hh.symm
      simp [alookup, h, ih, h']

theorem mem_of_alookup_eq_some {m : List (κ × β)} {k : κ} {v : β}
    (h : alookup m k = some v) : (k, v) ∈ m := by
  induction m with
  | nil => simp [alookup] at h
  | cons p rest ih =>
    by_cases hp : p.1 = k
    · simp only [alookup, if_pos hp] at h
      obtain ⟨k', v'⟩ := p
      obtain rfl : k' = k := hp
      obtain rfl : v' = v := by simpa using h
      exact List.mem_cons_self _ _
    · simp only [alookup, if_neg hp] at h
      exact List.mem_cons_of_mem _ (ih h)

theorem alookup_eq_some_of_mem {m : List (κ × β)} {k : κ} {v : β}
    (hnd : (m.map Prod.fst).Nodup) (h : (k, v) ∈ m) : alookup m k = some v := by
  induction m with
  | nil => simp at h
  | cons p rest ih =>
    simp only [List.map_cons, List.nodup_cons] at hnd
    rcases List.mem_cons.mp h with h1 | h1
    · subst h1; simp [alookup]
    · have hk : p.1 ≠ k := by
        intro hh
        exact hnd.1 (hh ▸ (List.mem_map.mpr ⟨(k, v), h1, rfl⟩))
      simp [alookup, hk, ih hnd.2 h1]

theorem alookup_isSome_iff (m : List (κ × β)) (k : κ) :
    (alookup m k).isSome ↔ k ∈ m.map Prod.fst := by
  cases h : alookup m k with
  | none => simp [(alookup_eq_none_iff m k).mp h]
  | some v => simp [List.mem_map.mpr ⟨(k, v), mem_of_alookup_eq_some h, rfl⟩]

end MapLemmas

theorem mem_values_iff {κ β : Type} {m : List (κ × β)} {v : β} :
    v ∈ m.map Prod.snd ↔ ∃ k, (k, v) ∈ m := by
  constructor
  · intro h
    obtain ⟨⟨k, v'⟩, hm, hv⟩ := List.mem_map.mp h
    exact ⟨k, by simpa [← hv] using hm⟩
  · rintro ⟨k, hk⟩
    exact List.mem_map.mpr ⟨(k, v), hk, rfl⟩

/-- An `Except`-valued fold whose every step succeeds is the `.ok` of the
corresponding pure fold. -/
theorem foldlM_eq_ok {α β : Type} {f : β → α → Except String β} {g : β → α → β}
    (l : List α) (h : ∀ a ∈ l, ∀ b, f b a = .ok (g b a)) (b : β) :
    l.foldlM f b = .ok (l.foldl g b) := by
  induction l generalizing b with
  | nil => rfl
  | cons a t ih =>
    rw [List.foldlM_cons, h a (List.mem_cons_self a t), List.foldl_cons]
    show Except.ok (g b a) >>= (fun b' => t.foldlM f b') = _
    rw [show (Except.ok (g b a) >>= fun b' => t.foldlM f b') = t.foldlM f (g b a) from rfl]
    exact ih (fun x hx b' => h x (List.mem_cons_of_mem _ hx) b') (g b a)

/-! ## C8: validation errors mutate no state -/

/-- C8: a `ValidationError` — an ingestion payload without a `sample` object,
or a goal update with a non-positive or non-finite value — is reported to the
caller and leaves both the metrics store and the goal configuration exactly
as they were. The error cases are also characterized: ingestion fails exactly
when the `sample` object is absent, and a goal update is rejected exactly
when either value fails the finite-and-positive test. -/
theorem C8_validation_error_atomicity
    (metrics : List Sample) (body : Payload) (newId : String) (now : Timestamp)
    (goals : Goals) (s c : JSNumber) :
    (∀ e, (postMetrics metrics body newId now).1 = Except.error e →
      (postMetrics metrics body newId now).2 = metrics) ∧
    ((∃ e, (postMetrics metrics body newId now).1 = Except.error e) ↔
      body.sample = none) ∧
    ((putGoals goals s c).2 = false → (putGoals goals s c).1 = goals) ∧
    ((putGoals goals s c).2 = false ↔
      ¬∃ sq cq, s = JSNumber.finite sq ∧ c = JSNumber.finite cq ∧ 0 < sq ∧ 0 < cq) := by
  refine ⟨?_, ?_, ?_, ?_⟩
  · intro e he
    cases hb : body.sample with
    | none => simp [postMetrics, hb]
    | some sp =>
      exfalso
      simp only [postMetrics, hb] at he
      cases hf : findMatchingIndex metrics (normalizeSample body newId now) with
      | none => simp [hf] at he
      | some idx =>
        cases hg : metrics[idx]? with
        | none => simp [hf, hg] at he
        | some existing => simp [hf, hg] at he
  · cases hb : body.sample with
    | none => exact ⟨fun _ => rfl, fun _ => ⟨"sample payload is required", by simp [postMetrics, hb]⟩⟩
    | some sp =>
      constructor
      · rintro ⟨e, he⟩
        exfalso
        simp only [postMetrics, hb] at he
        cases hf : findMatchingIndex metrics (normalizeSample body newId now) with
        | none => simp [hf] at he
        | some idx =>
          cases hg : metrics[idx]? with
          | none => simp [hf, hg] at he
          | some existing => simp [hf, hg] at he
      · intro h
        exact absurd h (by simp)
  · intro h
    cases s with
    | finite sq =>
      cases c with
      | finite cq =>
        by_cases hpos : 0 < sq ∧ 0 < cq
        · simp [putGoals, hpos] at h
        · simp [putGoals, hpos]
      | nan => rfl
      | posInf => rfl
      | negInf => rfl
    | nan => rfl
    | posInf => rfl
    | negInf => rfl
  · cases s with
    | finite sq =>
      cases c with
      | finite cq =>
        by_cases hpos : 0 < sq ∧ 0 < cq
        · simp [putGoals, hpos]
        · simp only [putGoals, if_neg hpos]
          constructor
          · rintro - ⟨sq', cq', hs, hc, hsp, hcp⟩
            obtain rfl : sq = sq' := by injection hs
            obtain rfl : cq = cq' := by injection hc
            exact hpos ⟨hsp, hcp⟩
          · intro h
            trivial
      | nan => simp [putGoals]
      | posInf => simp [putGoals]
      | negInf => simp [putGoals]
    | nan => simp [putGoals]
    | posInf => simp [putGoals]
    | negInf => simp [putGoals]

/-- C8 witness: a payload with no `sample` object is rejected and leaves a
one-element store untouched; `putGoals` with a negative steps value keeps the
default goals. -/
theorem C8_validation_error_atomicity_witness :
    (∀ e, (postMetrics [normalizeSample negPayload "a" (okTs "t" 0)]
        ⟨none, none⟩ "b" (okTs "t" 0)).1 = Except.error e →
      (postMetrics [normalizeSample negPayload "a" (okTs "t" 0)]
        ⟨none, none⟩ "b" (okTs "t" 0)).2 =
        [normalizeSample negPayload "a" (okTs "t" 0)]) ∧
    ((∃ e, (postMetrics [normalizeSample negPayload "a" (okTs "t" 0)]
        ⟨none, none⟩ "b" (okTs "t" 0)).1 = Except.error e) ↔
      (⟨none, none⟩ : Payload).sample = none) ∧
    ((putGoals defaultGoals (JSNumber.finite (-5)) (JSNumber.finite 400)).2 = false →
      (putGoals defaultGoals (JSNumber.finite (-5)) (JSNumber.finite 400)).1 =
        defaultGoals) ∧
    ((putGoals defaultGoals (JSNumber.finite (-5)) (JSNumber.finite 400)).2 = false ↔
      ¬∃ sq cq, JSNumber.finite (-5) = JSNumber.finite sq ∧
        JSNumber.finite 400 = JSNumber.finite cq ∧ 0 < sq ∧ 0 < cq) :=
  C8_validation_error_atomicity [normalizeSample negPayload "a" (okTs "t" 0)]
    ⟨none, none⟩ "b" (okTs "t" 0) defaultGoals
    (JSNumber.finite (-5)) (JSNumber.finite 400)

/-! ## C9: normalized measurements and their sign -/

/-- C9 counterexample: the claim says every stored sample has non-negative
`steps`, `distance` and `calories`; but a payload whose `steps` value is the
finite number `-5` passes `coerceNumber` unchanged, and ingestion stores a
sample with `steps = -5 < 0`. -/
theorem C9_counterexample :
    (normalizeSample negPayload "id0" (okTs "t" 0)).sample.steps = -5 ∧
    ¬(0 ≤ (normalizeSample negPayload "id0" (okTs "t" 0)).sample.steps) ∧
    (postMetrics [] negPayload "id0" (okTs "t" 0)).2 =
      [normalizeSample negPayload "id0" (okTs "t" 0)] := by
  refine ⟨rfl, by norm_num [normalizeSample, coerceNumber, rawSteps, negPayload], ?_⟩
  rfl

/-- C9 amended: each stored measurement equals `coerceNumber` of the raw
value: a non-numeric (non-finite) value is coerced to `0`, but a finite value
— including a negative one — is stored unchanged, so the stored fields are
non-negative only when every finite input is non-negative. -/
theorem C9_amended_normalized_measurements
    (payload : Payload) (newId : String) (now : Timestamp) :
    (normalizeSample payload newId now).sample.steps = coerceNumber (rawSteps payload) ∧
    (normalizeSample payload newId now).sample.distance = coerceNumber (rawDistance payload) ∧
    (normalizeSample payload newId now).sample.calories = coerceNumber (rawCalories payload) ∧
    (∀ x : JSNumber, 0 ≤ coerceNumber x ↔ ∀ q, x = JSNumber.finite q → 0 ≤ q) := by
  refine ⟨rfl, rfl, rfl, ?_⟩
  intro x
  cases x with
  | finite q => simp [coerceNumber]
  | nan => simp [coerceNumber]
  | posInf => simp [coerceNumber]
  | negInf => simp [coerceNumber]

/-- C9 amended witness at the concrete negative payload. -/
theorem C9_amended_normalized_measurements_witness :
    (normalizeSample negPayload "id0" (okTs "t" 0)).sample.steps =
      coerceNumber (rawSteps negPayload) ∧
    (normalizeSample negPayload "id0" (okTs "t" 0)).sample.distance =
      coerceNumber (rawDistance negPayload) ∧
    (normalizeSample negPayload "id0" (okTs "t" 0)).sample.calories =
      coerceNumber (rawCalories negPayload) ∧
    (∀ x : JSNumber, 0 ≤ coerceNumber x ↔ ∀ q, x = JSNumber.finite q → 0 ≤ q) :=
  C9_amended_normalized_measurements negPayload "id0" (okTs "t" 0)

/-! ## C2: the goal-configuration invariant -/

/-- C2 counterexample: the update `{ steps: 0.3, calories: 400 }` is finite
and strictly positive, so it is accepted, but `Math.round(0.3) = 0` is then
stored: the resulting configuration violates `steps > 0`. -/
theorem C2_counterexample :
    putGoals defaultGoals (JSNumber.finite (3 / 10)) (JSNumber.finite 400) =
      ({ steps := 0, calories := 400 }, true) ∧
    ¬(0 < (putGoals defaultGoals (JSNumber.finite (3 / 10))
        (JSNumber.finite 400)).1.steps) := by
  have h : putGoals defaultGoals (JSNumber.finite (3 / 10)) (JSNumber.finite 400) =
      ({ steps := 0, calories := 400 }, true) := by
    norm_num [putGoals, round_eq]
  refine ⟨h, ?_⟩
  rw [h]
  norm_num

/-- The weakened invariant that the code actually maintains. -/
theorem goals_invariant_preserved (l : List (JSNumber × JSNumber)) (g : Goals)
    (h : 0 ≤ g.steps ∧ 0 < g.calories) :
    0 ≤ (l.foldl applyGoalUpdate g).steps ∧ 0 < (l.foldl applyGoalUpdate g).calories := by
  induction l generalizing g with
  | nil => exact h
  | cons u t ih =>
    refine ih (applyGoalUpdate g u) ?_
    obtain ⟨s, c⟩ := u
    cases s with
    | finite sq =>
      cases c with
      | finite cq =>
        by_cases hpos : 0 < sq ∧ 0 < cq
        · simp only [applyGoalUpdate, putGoals, if_pos hpos]
          constructor
          · show (0 : ℚ) ≤ ((round sq : ℤ) : ℚ)
            have hr : (0 : ℤ) ≤ round sq := by
              rw [round_eq, Int.le_floor]
              push_cast
              linarith [hpos.1]
            exact_mod_cast hr
          · exact hpos.2
        · simpa [applyGoalUpdate, putGoals, hpos] using h
      | nan => exact h
      | posInf => exact h
      | negInf => exact h
    | nan => exact h
    | posInf => exact h
    | negInf => exact h

/-- C2 amended: after any sequence of `setGoals` calls starting from the
default configuration, `calories > 0` always holds but only `steps ≥ 0` is
guaranteed: an accepted finite positive steps value is stored as
`Math.round` of itself, which is positive exactly when the input is `≥ 1/2`
(an accepted input in `(0, 1/2)` stores `steps = 0`). -/
theorem C2_amended_goals_invariant (updates : List (JSNumber × JSNumber)) :
    0 ≤ (updates.foldl applyGoalUpdate defaultGoals).steps ∧
    0 < (updates.foldl applyGoalUpdate defaultGoals).calories ∧
    (∀ (g : Goals) (q c : ℚ), 0 < q → 0 < c →
      (0 < (putGoals g (JSNumber.finite q) (JSNumber.finite c)).1.steps ↔ 1 / 2 ≤ q)) := by
  obtain ⟨h1, h2⟩ := goals_invariant_preserved updates defaultGoals
    (by norm_num [defaultGoals])
  refine ⟨h1, h2, ?_⟩
  intro g q c hq hc
  have hcond : 0 < q ∧ 0 < c := ⟨hq, hc⟩
  simp only [putGoals, if_pos hcond]
  show (0 : ℚ) < ((round q : ℤ) : ℚ) ↔ 1 / 2 ≤ q
  rw [Int.cast_pos, round_eq, Int.lt_iff_add_one_le, zero_add, Int.le_floor]
  push_cast
  constructor <;> intro h <;> linarith

/-- C2 amended witness: the update sequence containing only the `0.3` update
keeps `steps ≥ 0` and `calories > 0`, and the rounding threshold fact holds. -/
theorem C2_amended_goals_invariant_witness :
    0 ≤ ([((JSNumber.finite (3 / 10)), (JSNumber.finite 400))].foldl
      applyGoalUpdate defaultGoals).steps ∧
    0 < ([((JSNumber.finite (3 / 10)), (JSNumber.finite 400))].foldl
      applyGoalUpdate defaultGoals).calories ∧
    (∀ (g : Goals) (q c : ℚ), 0 < q → 0 < c →
      (0 < (putGoals g (JSNumber.finite q) (JSNumber.finite c)).1.steps ↔ 1 / 2 ≤ q)) :=
  C2_amended_goals_invariant [((JSNumber.finite (3 / 10)), (JSNumber.finite 400))]

/-! ## C5: the linear forecast -/

/-- A sum over `enumFrom k l` equals the corresponding sum over indices. -/
theorem enumFrom_map_sum (l : List ℚ) :
    ∀ (k : ℕ) (f : ℕ → ℚ → ℚ),
    ((List.enumFrom k l).map fun p => f p.1 p.2).sum =
    ((List.range l.length).map fun i => f (k + i) (l.getD i 0)).sum := by
  induction l with
  | nil => intro k f; rfl
  | cons a t ih =>
    intro k f
    rw [List.enumFrom_cons, List.map_cons, List.sum_cons, ih (k + 1) f]
    rw [List.length_cons, List.range_succ_eq_map, List.map_cons, List.sum_cons, List.map_map]
    have htail :
        List.map ((fun i => f (k + i) ((a :: t).getD i 0)) ∘ Nat.succ) (List.range t.length) =
        List.map (fun i => f (k + 1 + i) (t.getD i 0)) (List.range t.length) := by
      apply List.map_congr_left
      intro i _
      show f (k + (i + 1)) ((a :: t).getD (i + 1) 0) = f (k + 1 + i) (t.getD i 0)
      have hk : k + (i + 1) = k + 1 + i := by omega
      rw [List.getD_cons_succ, hk]
    rw [htail]
    rfl

/-- A sum over `l.enum` equals the corresponding sum over indices. -/
theorem enum_map_sum (l : List ℚ) (f : ℕ → ℚ → ℚ) :
    (l.enum.map fun p => f p.1 p.2).sum =
    ((List.range l.length).map fun i => f i (l.getD i 0)).sum := by
  have h := enumFrom_map_sum l 0 f
  simpa using h

/-- C5: per metric, over the series `y` of the most recent `n ≤ 14` daily
totals in ascending date order: `n = 0` predicts `0`; `n = 1` predicts the
single value; `n ≥ 2` predicts `round (max 0 (intercept + slope·n))` with the
OLS fit over `x = 0..n-1` (slope `0` on a zero denominator); the series
`[1000, 2000, 3000]` predicts `4000`; and `basisDays` is the series length. -/
theorem C5_linear_forecast (values : List ℚ) :
    (values.length = 0 → linearForecast values = 0) ∧
    (∀ v, values = [v] → linearForecast values = v) ∧
    (2 ≤ values.length →
      linearForecast values =
        max 0 (specIntercept values + specSlope values * (values.length : ℚ))) ∧
    round (linearForecast [1000, 2000, 3000]) = 4000 ∧
    (∀ m : DayMap,
      (buildPredictions m).basisDays =
        ((recentEntries m).map fun p => p.2.steps).length ∧
      (buildPredictions m).basisDays = min 14 m.length ∧
      (buildPredictions m).steps =
        round (linearForecast ((recentEntries m).map fun p => p.2.steps)) ∧
      (buildPredictions m).calories =
        round (linearForecast ((recentEntries m).map fun p => p.2.calories))) := by
  refine ⟨?_, ?_, ?_, ?_, ?_⟩
  · intro h
    simp [linearForecast, h]
  · rintro v rfl
    simp [linearForecast]
  · intro h
    have h0 : ¬values.length = 0 := by omega
    have h1 : ¬values.length < 2 := by omega
    simp only [linearForecast, if_neg h0, if_neg h1]
    rw [enum_map_sum values fun i _ => (i : ℚ),
      enum_map_sum values fun _ v => v,
      enum_map_sum values fun i v => (i : ℚ) * v,
      enum_map_sum values fun i _ => (i : ℚ) * (i : ℚ)]
    simp only [specIntercept, specSlope, specDenom, specSumX, specSumY, specSumXY, specSumXX]
  · norm_num [linearForecast, List.enum, List.enumFrom, round_eq]
  · intro m
    refine ⟨by simp [buildPredictions], ?_, rfl, rfl⟩
    have hlen : (List.insertionSort pairLE m).length = m.length :=
      List.length_insertionSort pairLE m
    simp only [buildPredictions, recentEntries, List.length_drop, hlen]
    omega

/-- C5 witness: the claim's own example series `[1000, 2000, 3000]`. -/
theorem C5_linear_forecast_witness :
    ((([1000, 2000, 3000] : List ℚ).length = 0 → linearForecast [1000, 2000, 3000] = 0) ∧
    (∀ v, ([1000, 2000, 3000] : List ℚ) = [v] → linearForecast [1000, 2000, 3000] = v) ∧
    (2 ≤ ([1000, 2000, 3000] : List ℚ).length →
      linearForecast [1000, 2000, 3000] =
        max 0 (specIntercept [1000, 2000, 3000] +
          specSlope [1000, 2000, 3000] * (([1000, 2000, 3000] : List ℚ).length : ℚ))) ∧
    round (linearForecast [1000, 2000, 3000]) = 4000 ∧
    (∀ m : DayMap,
      (buildPredictions m).basisDays =
        ((recentEntries m).map fun p => p.2.steps).length ∧
      (buildPredictions m).basisDays = min 14 m.length ∧
      (buildPredictions m).steps =
        round (linearForecast ((recentEntries m).map fun p => p.2.steps)) ∧
      (buildPredictions m).calories =
        round (linearForecast ((recentEntries m).map fun p => p.2.calories)))) :=
  C5_linear_forecast [1000, 2000, 3000]

/-! ## C4: the streak walk -/

/-- Every day strictly inside the computed streak qualifies. -/
theorem streakAux_qualifies (m : DayMap) (g : Goals) :
    ∀ (fuel : ℕ) (cursor : ℤ) (i : ℕ), i < streakAux m g fuel cursor →
      qualifiesB m g (cursor - (i : ℤ)) = true := by
  intro fuel
  induction fuel with
  | zero =>
    intro cursor i h
    simp [streakAux] at h
  | succ n ih =>
    intro cursor i h
    cases hl : alookup m cursor with
    | none => simp [streakAux, hl] at h
    | some t =>
      by_cases hm : meetsGoal g t
      · simp only [streakAux, hl, if_pos hm] at h
        cases i with
        | zero =>
          simpa [qualifiesB, hl] using hm
        | succ j =>
          have hj : j < streakAux m g n (cursor - 1) := by omega
          have hq := ih (cursor - 1) j hj
          have heq : cursor - ((j + 1 : ℕ) : ℤ) = cursor - 1 - (j : ℤ) := by
            push_cast
            ring
          rw [heq]
          exact hq
      · simp [streakAux, hl, hm] at h

/-- When the fuel was not exhausted, the day right past the computed streak
fails to qualify (it is the day the loop stopped on). -/
theorem streakAux_stop (m : DayMap) (g : Goals) :
    ∀ (fuel : ℕ) (cursor : ℤ), streakAux m g fuel cursor < fuel →
      qualifiesB m g (cursor - (streakAux m g fuel cursor : ℤ)) = false := by
  intro fuel
  induction fuel with
  | zero =>
    intro cursor h
    omega
  | succ n ih =>
    intro cursor h
    cases hl : alookup m cursor with
    | none =>
      simp [streakAux, hl, qualifiesB]
    | some t =>
      by_cases hm : meetsGoal g t
      · simp only [streakAux, hl, if_pos hm] at h ⊢
        have hr : streakAux m g n (cursor - 1) < n := by omega
        have hs := ih (cursor - 1) hr
        have heq : cursor - ((streakAux m g n (cursor - 1) + 1 : ℕ) : ℤ) =
            cursor - 1 - ((streakAux m g n (cursor - 1) : ℕ) : ℤ) := by
          push_cast
          ring
        rw [heq]
        exact hs
      · simp [streakAux, hl, hm, qualifiesB]

/-- The streak never exceeds the number of entries of the aggregate map:
the qualifying days are distinct and each has an entry. -/
theorem computeStreak_le_length (m : DayMap) (g : Goals) (today : ℤ) :
    computeStreak m g today ≤ m.length := by
  by_contra hcon
  push_neg at hcon
  have hmem : ∀ i < computeStreak m g today, (today - (i : ℤ)) ∈ m.map Prod.fst := by
    intro i hi
    have hq := streakAux_qualifies m g (m.length + 1) today i hi
    unfold qualifiesB at hq
    cases hl : alookup m (today - (i : ℤ)) with
    | none => rw [hl] at hq; simp at hq
    | some t =>
      exact (alookup_isSome_iff m (today - (i : ℤ))).mp (by rw [hl]; rfl)
  have hinj : Function.Injective fun i : ℕ => today - (i : ℤ) := by
    intro i j hij
    simp only at hij
    omega
  have hcard : ((Finset.range (computeStreak m g today)).image
      fun i : ℕ => today - (i : ℤ)).card = computeStreak m g today := by
    rw [Finset.card_image_of_injective _ hinj, Finset.card_range]
  have hsub : ((Finset.range (computeStreak m g today)).image
      fun i : ℕ => today - (i : ℤ)) ⊆ (m.map Prod.fst).toFinset := by
    intro d hd
    obtain ⟨i, hi, rfl⟩ := Finset.mem_image.mp hd
    exact List.mem_toFinset.mpr (hmem i (Finset.mem_range.mp hi))
  have h1 := Finset.card_le_card hsub
  have h2 := (m.map Prod.fst).toFinset_card_le
  rw [hcard] at h1
  rw [List.length_map] at h2
  omega

/-- C4: the streak counts exactly the consecutive qualifying UTC days ending
at `today`: every day within the streak qualifies, the next older day fails
(it is absent or misses a threshold), and in particular a failing `today`
forces a zero streak regardless of any earlier qualifying run. -/
theorem C4_streak_characterization (m : DayMap) (g : Goals) (today : ℤ) :
    (∀ i < computeStreak m g today, qualifiesB m g (today - (i : ℤ)) = true) ∧
    qualifiesB m g (today - (computeStreak m g today : ℤ)) = false ∧
    (qualifiesB m g today = false → computeStreak m g today = 0) := by
  have hle := computeStreak_le_length m g today
  refine ⟨?_, ?_, ?_⟩
  · intro i hi
    exact streakAux_qualifies m g (m.length + 1) today i hi
  · exact streakAux_stop m g (m.length + 1) today
      (by unfold computeStreak at hle; omega)
  · intro h
    by_contra h0
    have hq := streakAux_qualifies m g (m.length + 1) today 0
      (by unfold computeStreak at h0; omega)
    rw [show today - ((0 : ℕ) : ℤ) = today by ring] at hq
    rw [h] at hq
    exact Bool.false_ne_true hq

/-- C4 witness at a concrete three-day qualifying history:
days 98, 99, 100 all meet the default goals, day 97 is absent. -/
theorem C4_streak_characterization_witness :
    (∀ i < computeStreak [(100, ⟨9000, 450⟩), (99, ⟨9000, 450⟩), (98, ⟨9000, 450⟩)]
        defaultGoals 100,
      qualifiesB [(100, ⟨9000, 450⟩), (99, ⟨9000, 450⟩), (98, ⟨9000, 450⟩)]
        defaultGoals (100 - (i : ℤ)) = true) ∧
    qualifiesB [(100, ⟨9000, 450⟩), (99, ⟨9000, 450⟩), (98, ⟨9000, 450⟩)] defaultGoals
      (100 - (computeStreak [(100, ⟨9000, 450⟩), (99, ⟨9000, 450⟩), (98, ⟨9000, 450⟩)]
        defaultGoals 100 : ℤ)) = false ∧
    (qualifiesB [(100, ⟨9000, 450⟩), (99, ⟨9000, 450⟩), (98, ⟨9000, 450⟩)]
        defaultGoals 100 = false →
      computeStreak [(100, ⟨9000, 450⟩), (99, ⟨9000, 450⟩), (98, ⟨9000, 450⟩)]
        defaultGoals 100 = 0) :=
  C4_streak_characterization [(100, ⟨9000, 450⟩), (99, ⟨9000, 450⟩), (98, ⟨9000, 450⟩)]
    defaultGoals 100

/-! ## C10: the bestDay fold -/

/-- Specification of the `bestDay` fold over a list whose dates strictly
increase: the result is a member with maximal steps, and among members with
the same steps the one with the smallest date. -/
theorem foldl_bestStep_spec :
    ∀ (l : List Entry) (b : Entry),
      List.Pairwise (fun x y : Entry => x.date < y.date) (b :: l) →
      ∃ r, l.foldl bestStep (some b) = some r ∧
        r ∈ b :: l ∧
        (∀ x ∈ b :: l, x.steps ≤ r.steps) ∧
        (∀ x ∈ b :: l, x.steps = r.steps → r.date ≤ x.date) := by
  intro l
  induction l with
  | nil =>
    intro b _
    exact ⟨b, rfl, List.mem_cons_self b [], by simp, by simp⟩
  | cons a t ih =>
    intro b hp
    obtain ⟨hb, hp2⟩ := List.pairwise_cons.mp hp
    by_cases hba : b.steps < a.steps
    · obtain ⟨r, hr, hmem, hmax, hearliest⟩ := ih a hp2
      refine ⟨r, ?_, List.mem_cons_of_mem b hmem, ?_, ?_⟩
      · simpa [bestStep, hba] using hr
      · intro x hx
        rcases List.mem_cons.mp hx with rfl | hx'
        · have ha := hmax a (List.mem_cons_self a t)
          linarith
        · exact hmax x hx'
      · intro x hx hxs
        rcases List.mem_cons.mp hx with rfl | hx'
        · exfalso
          have ha := hmax a (List.mem_cons_self a t)
          linarith
        · exact hearliest x hx' hxs
    · have hp' : List.Pairwise (fun x y : Entry => x.date < y.date) (b :: t) := by
        obtain ⟨ha, hp3⟩ := List.pairwise_cons.mp hp2
        exact List.pairwise_cons.mpr ⟨fun y hy => hb y (List.mem_cons_of_mem a hy), hp3⟩
      obtain ⟨r, hr, hmem, hmax, hearliest⟩ := ih b hp'
      refine ⟨r, ?_, ?_, ?_, ?_⟩
      · simpa [bestStep, hba] using hr
      · rcases List.mem_cons.mp hmem with rfl | hx'
        · exact List.mem_cons_self r (a :: t)
        · exact List.mem_cons_of_mem b (List.mem_cons_of_mem a hx')
      · intro x hx
        rcases List.mem_cons.mp hx with rfl | hx'
        · exact hmax x (List.mem_cons_self x t)
        · rcases List.mem_cons.mp hx' with rfl | hx''
          · have hbr := hmax b (List.mem_cons_self b t)
            have : x.steps ≤ b.steps := le_of_not_lt hba
            linarith
          · exact hmax x (List.mem_cons_of_mem b hx'')
      · intro x hx hxs
        rcases List.mem_cons.mp hx with rfl | hx'
        · exact hearliest x (List.mem_cons_self x t) hxs
        · rcases List.mem_cons.mp hx' with rfl | hx''
          · have hbr := hmax b (List.mem_cons_self b t)
            have hxb : x.steps ≤ b.steps := le_of_not_lt hba
            have hbs : b.steps = r.steps := le_antisymm hbr (by linarith)
            have hrb := hearliest b (List.mem_cons_self b t) hbs
            have hbx : b.date < x.date := hb x (List.mem_cons_self x t)
            linarith
          · exact hearliest x (List.mem_cons_of_mem b hx'') hxs

/-- The strictly-increasing-date property of the sorted entries list, given
that the aggregate map has no duplicate day keys. -/
theorem sorted_entries_strict (m : DayMap)
    (hnd : (m.map Prod.fst).Nodup) :
    List.Pairwise (fun x y : Entry => x.date < y.date)
      (List.insertionSort entryLE
        (m.map fun p => (⟨p.1, p.2.steps, p.2.calories⟩ : Entry))) := by
  have h1 : List.Pairwise entryLE
      (List.insertionSort entryLE
        (m.map fun p => (⟨p.1, p.2.steps, p.2.calories⟩ : Entry))) :=
    List.sorted_insertionSort entryLE _
  have hdates : ((List.insertionSort entryLE
      (m.map fun p => (⟨p.1, p.2.steps, p.2.calories⟩ : Entry))).map Entry.date).Nodup := by
    have hperm := (List.perm_insertionSort entryLE
      (m.map fun p => (⟨p.1, p.2.steps, p.2.calories⟩ : Entry))).map Entry.date
    rw [hperm.nodup_iff]
    rw [List.map_map]
    exact hnd
  have h2 : List.Pairwise (fun x y : Entry => x.date ≠ y.date)
      (List.insertionSort entryLE
        (m.map fun p => (⟨p.1, p.2.steps, p.2.calories⟩ : Entry))) :=
    List.pairwise_map.mp hdates
  exact (h1.and h2).imp fun h => lt_of_le_of_ne h.1 h.2

/-- C10: on a non-empty aggregate map, `insights.bestDay` is the entry with
maximal steps over the whole history, and when several days tie on steps it
is the chronologically earliest one (the fold keeps the incumbent unless a
later entry is strictly greater, over date-ascending entries). -/
theorem C10_bestDay_earliest_max (m : DayMap) (g : Goals) (today : ℤ)
    (hne : m ≠ []) (hnd : (m.map Prod.fst).Nodup) :
    ∃ e : Entry,
      (buildInsights g today m).bestDay = some e ∧
      (e.date, (⟨e.steps, e.calories⟩ : Totals)) ∈ m ∧
      (∀ p ∈ m, p.2.steps ≤ e.steps) ∧
      (∀ p ∈ m, p.2.steps = e.steps → e.date ≤ p.1) := by
  have hene : ¬((m.map fun p => (⟨p.1, p.2.steps, p.2.calories⟩ : Entry)).isEmpty = true) := by
    cases m with
    | nil => exact absurd rfl hne
    | cons p t => simp
  have hbd : (buildInsights g today m).bestDay =
      (List.insertionSort entryLE
        (m.map fun p => (⟨p.1, p.2.steps, p.2.calories⟩ : Entry))).foldl bestStep none := by
    simp only [buildInsights, if_neg hene]
  have hstrict := sorted_entries_strict m hnd
  have hlen : (List.insertionSort entryLE
      (m.map fun p => (⟨p.1, p.2.steps, p.2.calories⟩ : Entry))).length ≠ 0 := by
    rw [List.length_insertionSort, List.length_map]
    cases m with
    | nil => exact absurd rfl hne
    | cons p t => simp
  cases hs : List.insertionSort entryLE
      (m.map fun p => (⟨p.1, p.2.steps, p.2.calories⟩ : Entry)) with
  | nil => rw [hs] at hlen; simp at hlen
  | cons e rest =>
    rw [hs] at hstrict
    obtain ⟨r, hr, hmem, hmax, hearliest⟩ := foldl_bestStep_spec rest e hstrict
    have hmm : ∀ x : Entry, x ∈ e :: rest ↔
        x ∈ m.map fun p => (⟨p.1, p.2.steps, p.2.calories⟩ : Entry) := by
      intro x
      rw [← hs]
      exact List.mem_insertionSort entryLE
    refine ⟨r, ?_, ?_, ?_, ?_⟩
    · rw [hbd, hs, List.foldl_cons]
      exact hr
    · obtain ⟨p, hp, hpe⟩ := List.mem_map.mp ((hmm r).mp hmem)
      rw [← hpe]
      exact hp
    · intro p hp
      exact hmax ⟨p.1, p.2.steps, p.2.calories⟩
        ((hmm _).mpr (List.mem_map.mpr ⟨p, hp, rfl⟩))
    · intro p hp hps
      exact hearliest ⟨p.1, p.2.steps, p.2.calories⟩
        ((hmm _).mpr (List.mem_map.mpr ⟨p, hp, rfl⟩)) hps

/-- C10 witness: two days tie at 10 steps; the earlier day (3) wins. -/
theorem C10_bestDay_earliest_max_witness :
    ∃ e : Entry,
      (buildInsights defaultGoals 100 [(5, ⟨10, 1⟩), (3, ⟨10, 2⟩)]).bestDay = some e ∧
      (e.date, (⟨e.steps, e.calories⟩ : Totals)) ∈ [(5, ⟨10, 1⟩), (3, ⟨10, 2⟩)] ∧
      (∀ p ∈ [((5 : ℤ), (⟨10, 1⟩ : Totals)), (3, ⟨10, 2⟩)], p.2.steps ≤ e.steps) ∧
      (∀ p ∈ [((5 : ℤ), (⟨10, 1⟩ : Totals)), (3, ⟨10, 2⟩)],
        p.2.steps = e.steps → e.date ≤ p.1) :=
  C10_bestDay_earliest_max [(5, ⟨10, 1⟩), (3, ⟨10, 2⟩)] defaultGoals 100
    (by simp) (by simp)

/-! ## C6: the insights window -/

/-- C6 counterexample: with `today = 0` and a single aggregate on day `1`
(produced by a future-dated sample `end`), the claim says the window
`[today − 6, today]` is empty and the averages are `0`; but the code's
filter has no upper bound, the future day enters the window, and
`averageSteps7d = 7000 ≠ 0`. -/
theorem C6_counterexample :
    (buildInsights defaultGoals 0 [(1, ⟨7000, 100⟩)]).averageSteps7d = 7000 ∧
    (buildInsights defaultGoals 0 [(1, ⟨7000, 100⟩)]).averageSteps7d ≠ 0 := by
  have h : (buildInsights defaultGoals 0 [(1, ⟨7000, 100⟩)]).averageSteps7d = 7000 := by
    norm_num [buildInsights, List.insertionSort, List.orderedInsert, round_eq, defaultGoals]
  refine ⟨h, ?_⟩
  rw [h]
  norm_num

/-- C6 amended: the window used by `averageSteps7d`, `averageCalories7d` and
`goalComplianceRate` consists of exactly those aggregate days `d` with
`d ≥ today − 6`, with **no upper bound**: every aggregate day in that range —
including days after `today` — contributes, and only days before `today − 6`
are excluded. -/
theorem C6_amended_window (m : DayMap) (g : Goals) (today : ℤ) :
    (buildInsights g today m).averageSteps7d =
      round (((windowAggregates m today).map fun p => p.2.steps).sum /
        (if (windowAggregates m today).length = 0 then (1 : ℚ)
         else ((windowAggregates m today).length : ℚ))) ∧
    (buildInsights g today m).averageCalories7d =
      round (((windowAggregates m today).map fun p => p.2.calories).sum /
        (if (windowAggregates m today).length = 0 then (1 : ℚ)
         else ((windowAggregates m today).length : ℚ))) ∧
    (buildInsights g today m).goalComplianceRate =
      (if (windowAggregates m today).length = 0 then 0
       else (((windowAggregates m today).filter fun p => meetsGoal g p.2).length : ℚ) /
         ((windowAggregates m today).length : ℚ)) ∧
    (∀ p : ℤ × Totals, p ∈ windowAggregates m today ↔ p ∈ m ∧ today - 6 ≤ p.1) := by
  cases m with
  | nil =>
    refine ⟨?_, ?_, ?_, ?_⟩
    · simp [buildInsights, windowAggregates]
    · simp [buildInsights, windowAggregates]
    · simp [buildInsights, windowAggregates]
    · intro p
      simp [windowAggregates]
  | cons p0 t0 =>
    have hene : ¬(((p0 :: t0).map fun p =>
        (⟨p.1, p.2.steps, p.2.calories⟩ : Entry)).isEmpty = true) := by simp
    have hperm1 : ((List.insertionSort entryLE ((p0 :: t0).map fun p =>
          (⟨p.1, p.2.steps, p.2.calories⟩ : Entry))).filter fun e =>
            decide (today - 6 ≤ e.date)).Perm
        ((windowAggregates (p0 :: t0) today).map fun p =>
          (⟨p.1, p.2.steps, p.2.calories⟩ : Entry)) := by
      have h1 := (List.perm_insertionSort entryLE ((p0 :: t0).map fun p =>
        (⟨p.1, p.2.steps, p.2.calories⟩ : Entry))).filter
        fun e => decide (today - 6 ≤ e.date)
      have h2 : (((p0 :: t0).map fun p =>
          (⟨p.1, p.2.steps, p.2.calories⟩ : Entry)).filter fun e =>
            decide (today - 6 ≤ e.date)) =
          ((windowAggregates (p0 :: t0) today).map fun p =>
            (⟨p.1, p.2.steps, p.2.calories⟩ : Entry)) := by
        rw [List.filter_map]
        rfl
      exact h2 ▸ h1
    have hlen : ((List.insertionSort entryLE ((p0 :: t0).map fun p =>
          (⟨p.1, p.2.steps, p.2.calories⟩ : Entry))).filter fun e =>
            decide (today - 6 ≤ e.date)).length =
        (windowAggregates (p0 :: t0) today).length := by
      rw [hperm1.length_eq, List.length_map]
    have hsum : (((List.insertionSort entryLE ((p0 :: t0).map fun p =>
          (⟨p.1, p.2.steps, p.2.calories⟩ : Entry))).filter fun e =>
            decide (today - 6 ≤ e.date)).map Entry.steps).sum =
        ((windowAggregates (p0 :: t0) today).map fun p => p.2.steps).sum := by
      rw [(hperm1.map Entry.steps).sum_eq, List.map_map]
      rfl
    have hsumc : (((List.insertionSort entryLE ((p0 :: t0).map fun p =>
          (⟨p.1, p.2.steps, p.2.calories⟩ : Entry))).filter fun e =>
            decide (today - 6 ≤ e.date)).map Entry.calories).sum =
        ((windowAggregates (p0 :: t0) today).map fun p => p.2.calories).sum := by
      rw [(hperm1.map Entry.calories).sum_eq, List.map_map]
      rfl
    have hcomp : (((List.insertionSort entryLE ((p0 :: t0).map fun p =>
          (⟨p.1, p.2.steps, p.2.calories⟩ : Entry))).filter fun e =>
            decide (today - 6 ≤ e.date)).filter fun e =>
              decide (g.steps ≤ e.steps) && decide (g.calories ≤ e.calories)).length =
        ((windowAggregates (p0 :: t0) today).filter fun p => meetsGoal g p.2).length := by
      rw [(hperm1.filter fun e =>
        decide (g.steps ≤ e.steps) && decide (g.calories ≤ e.calories)).length_eq]
      rw [List.filter_map, List.length_map]
      rfl
    refine ⟨?_, ?_, ?_, ?_⟩
    · simp only [buildInsights, if_neg hene]
      rw [hsum, hlen]
    · simp only [buildInsights, if_neg hene]
      rw [hsumc, hlen]
    · simp only [buildInsights, if_neg hene]
      rw [hcomp, hlen]
    · intro p
      simp [windowAggregates, List.mem_filter]

/-- C6 amended witness: the future day 1 is in the window for `today = 0`. -/
theorem C6_amended_window_witness :
    ((buildInsights defaultGoals 0 [(1, ⟨7000, 100⟩)]).averageSteps7d =
      round (((windowAggregates [(1, ⟨7000, 100⟩)] 0).map fun p => p.2.steps).sum /
        (if (windowAggregates [(1, ⟨7000, 100⟩)] 0).length = 0 then (1 : ℚ)
         else ((windowAggregates [(1, ⟨7000, 100⟩)] 0).length : ℚ))) ∧
    (buildInsights defaultGoals 0 [(1, ⟨7000, 100⟩)]).averageCalories7d =
      round (((windowAggregates [(1, ⟨7000, 100⟩)] 0).map fun p => p.2.calories).sum /
        (if (windowAggregates [(1, ⟨7000, 100⟩)] 0).length = 0 then (1 : ℚ)
         else ((windowAggregates [(1, ⟨7000, 100⟩)] 0).length : ℚ))) ∧
    (buildInsights defaultGoals 0 [(1, ⟨7000, 100⟩)]).goalComplianceRate =
      (if (windowAggregates [(1, ⟨7000, 100⟩)] 0).length = 0 then 0
       else (((windowAggregates [(1, ⟨7000, 100⟩)] 0).filter
           fun p => meetsGoal defaultGoals p.2).length : ℚ) /
         ((windowAggregates [(1, ⟨7000, 100⟩)] 0).length : ℚ)) ∧
    (∀ p : ℤ × Totals, p ∈ windowAggregates [(1, ⟨7000, 100⟩)] 0 ↔
      p ∈ [((1 : ℤ), (⟨7000, 100⟩ : Totals))] ∧ (0 : ℤ) - 6 ≤ p.1)) :=
  C6_amended_window [(1, ⟨7000, 100⟩)] defaultGoals 0

/-! ## C7: deduplicating ingestion -/

theorem findIdxAux_eq_none {α : Type} (p : α → Bool) (l : List α)
    (h : ∀ a ∈ l, p a = false) : findIdxAux p l = none := by
  induction l with
  | nil => rfl
  | cons a t ih =>
    simp [findIdxAux, h a (List.mem_cons_self a t),
      ih fun x hx => h x (List.mem_cons_of_mem a hx)]

theorem findIdxAux_append_tail {α : Type} (p : α → Bool) (l : List α) (x : α)
    (h : ∀ a ∈ l, p a = false) (hx : p x = true) :
    findIdxAux p (l ++ [x]) = some l.length := by
  induction l with
  | nil => simp [findIdxAux, hx]
  | cons a t ih =>
    simp [findIdxAux, h a (List.mem_cons_self a t),
      ih fun y hy => h y (List.mem_cons_of_mem a hy)]

theorem set_concat {α : Type} (l : List α) (x y : α) :
    (l ++ [x]).set l.length y = l ++ [y] := by
  induction l with
  | nil => rfl
  | cons a t ih => simp [ih]

/-- C7, part 1: when the normalized `(deviceId, start, end)` triple matches a
stored entry, ingestion replaces that entry's measurements and `receivedAt`
in place — same length, same position, same id — and reports `updated` with
the original id.  Part 2: ingesting the same triple twice over a store that
does not contain it yet appends once, then updates in place: exactly one
stored sample carries that triple afterwards, holding the second payload's
measurements under the first ingestion's id. -/
theorem C7_dedup_idempotent_replace :
    (∀ (metrics : List Sample) (body : Payload) (newId : String) (now : Timestamp)
        (idx : ℕ) (existing : Sample),
      body.sample ≠ none →
      findMatchingIndex metrics (normalizeSample body newId now) = some idx →
      metrics[idx]? = some existing →
      postMetrics metrics body newId now =
        (Except.ok ⟨"updated", existing.id⟩,
          metrics.set idx
            { existing with
              receivedAt := (normalizeSample body newId now).receivedAt
              sample := (normalizeSample body newId now).sample }) ∧
      (metrics.set idx
        { existing with
          receivedAt := (normalizeSample body newId now).receivedAt
          sample := (normalizeSample body newId now).sample }).length = metrics.length ∧
      (metrics.set idx
        { existing with
          receivedAt := (normalizeSample body newId now).receivedAt
          sample := (normalizeSample body newId now).sample })[idx]? =
        some { existing with
          receivedAt := (normalizeSample body newId now).receivedAt
          sample := (normalizeSample body newId now).sample }) ∧
    (∀ (metrics : List Sample) (p₁ p₂ : Payload) (id₁ id₂ : String) (now₁ now₂ : Timestamp),
      p₁.sample ≠ none → p₂.sample ≠ none →
      sampleKeyMatches (normalizeSample p₁ id₁ now₁) (normalizeSample p₂ id₂ now₂) = true →
      (∀ item ∈ metrics,
        sampleKeyMatches item (normalizeSample p₁ id₁ now₁) = false ∧
        sampleKeyMatches item (normalizeSample p₂ id₂ now₂) = false) →
      postMetrics metrics p₁ id₁ now₁ =
        (Except.ok ⟨"stored", id₁⟩, metrics ++ [normalizeSample p₁ id₁ now₁]) ∧
      postMetrics (metrics ++ [normalizeSample p₁ id₁ now₁]) p₂ id₂ now₂ =
        (Except.ok ⟨"updated", id₁⟩,
          metrics ++
            [{ normalizeSample p₁ id₁ now₁ with
               receivedAt := (normalizeSample p₂ id₂ now₂).receivedAt
               sample := (normalizeSample p₂ id₂ now₂).sample }]) ∧
      (metrics ++
        [{ normalizeSample p₁ id₁ now₁ with
           receivedAt := (normalizeSample p₂ id₂ now₂).receivedAt
           sample := (normalizeSample p₂ id₂ now₂).sample }]).countP
        (fun it => sampleKeyMatches it (normalizeSample p₂ id₂ now₂)) = 1 ∧
      (metrics ++
        [{ normalizeSample p₁ id₁ now₁ with
           receivedAt := (normalizeSample p₂ id₂ now₂).receivedAt
           sample := (normalizeSample p₂ id₂ now₂).sample }]).length =
        metrics.length + 1) := by
  constructor
  · intro metrics body newId now idx existing hs hidx hget
    obtain ⟨sp, hsp⟩ := Option.ne_none_iff_exists'.mp hs
    refine ⟨?_, List.length_set metrics idx _, ?_⟩
    · simp only [postMetrics, hsp, hidx, hget]
    · have hlt : idx < metrics.length := by
        by_contra hge
        push_neg at hge
        rw [List.getElem?_eq_none hge] at hget
        exact Option.noConfusion hget
      rw [List.getElem?_set_self]
      exact hlt
  · intro metrics p₁ p₂ id₁ id₂ now₁ now₂ hs₁ hs₂ htr hfresh
    obtain ⟨sp₁, hsp₁⟩ := Option.ne_none_iff_exists'.mp hs₁
    obtain ⟨sp₂, hsp₂⟩ := Option.ne_none_iff_exists'.mp hs₂
    have hfind₁ : findMatchingIndex metrics (normalizeSample p₁ id₁ now₁) = none :=
      findIdxAux_eq_none _ metrics fun a ha => (hfresh a ha).1
    have hfind₂ : findMatchingIndex (metrics ++ [normalizeSample p₁ id₁ now₁])
        (normalizeSample p₂ id₂ now₂) = some metrics.length :=
      findIdxAux_append_tail _ metrics _ (fun a ha => (hfresh a ha).2) htr
    have hget₂ : (metrics ++ [normalizeSample p₁ id₁ now₁])[metrics.length]? =
        some (normalizeSample p₁ id₁ now₁) := by
      rw [List.getElem?_append_right (le_refl metrics.length)]
      simp
    refine ⟨?_, ?_, ?_, ?_⟩
    · simp only [postMetrics, hsp₁, hfind₁]
      rfl
    · simp only [postMetrics, hsp₂, hfind₂, hget₂]
      rw [set_concat]
      rfl
    · rw [List.countP_append]
      have h0 : metrics.countP
          (fun it => sampleKeyMatches it (normalizeSample p₂ id₂ now₂)) = 0 :=
        List.countP_eq_zero.mpr fun a ha => by simp [(hfresh a ha).2]
      have h1 : sampleKeyMatches
          { normalizeSample p₁ id₁ now₁ with
            receivedAt := (normalizeSample p₂ id₂ now₂).receivedAt
            sample := (normalizeSample p₂ id₂ now₂).sample }
          (normalizeSample p₂ id₂ now₂) = true := by
        simp only [sampleKeyMatches, Bool.and_eq_true, beq_iff_eq] at htr
        simp [sampleKeyMatches, htr.1.1]
      rw [h0]
      simp [List.countP_cons, h1]
    · simp

/-- C7 witness: ingesting the same `(devA, "S", "E")` window twice on an
empty store, with different measurements, stores once then updates. -/
theorem C7_dedup_idempotent_replace_witness :
    postMetrics [] dedupPayload "u1" (okTs "T1" 0) =
      (Except.ok ⟨"stored", "u1"⟩, [normalizeSample dedupPayload "u1" (okTs "T1" 0)]) ∧
    postMetrics [normalizeSample dedupPayload "u1" (okTs "T1" 0)]
        dedupPayload2 "u2" (okTs "T2" 1) =
      (Except.ok ⟨"updated", "u1"⟩,
        [{ normalizeSample dedupPayload "u1" (okTs "T1" 0) with
           receivedAt := (normalizeSample dedupPayload2 "u2" (okTs "T2" 1)).receivedAt
           sample := (normalizeSample dedupPayload2 "u2" (okTs "T2" 1)).sample }]) ∧
    ([{ normalizeSample dedupPayload "u1" (okTs "T1" 0) with
        receivedAt := (normalizeSample dedupPayload2 "u2" (okTs "T2" 1)).receivedAt
        sample := (normalizeSample dedupPayload2 "u2" (okTs "T2" 1)).sample }]).countP
      (fun it => sampleKeyMatches it (normalizeSample dedupPayload2 "u2" (okTs "T2" 1))) = 1 ∧
    ([{ normalizeSample dedupPayload "u1" (okTs "T1" 0) with
        receivedAt := (normalizeSample dedupPayload2 "u2" (okTs "T2" 1)).receivedAt
        sample := (normalizeSample dedupPayload2 "u2" (okTs "T2" 1)).sample }]).length =
      ([] : List Sample).length + 1 := by
  have h := C7_dedup_idempotent_replace.2 [] dedupPayload dedupPayload2
    "u1" "u2" (okTs "T1" 0) (okTs "T2" 1)
    (by simp [dedupPayload]) (by simp [dedupPayload2])
    (by decide) (by simp)
  simpa using h

/-! ## C3/C1: the daily aggregator -/

theorem pass1Step_ok (m : GroupMap) (item : Sample)
    (h : hasParseableEnd item = true) :
    pass1Step m item = .ok (pass1StepP m item) := by
  obtain ⟨ms, hms⟩ := Option.isSome_iff_exists.mp h
  unfold pass1Step pass1StepP endDay
  rw [hms]
  simp only [Option.getD_some, dateKey]
  show Except.ok (jsDay ms) >>= _ = _
  rw [show ∀ f : ℤ → Except String GroupMap,
    (Except.ok (jsDay ms) >>= f) = f (jsDay ms) from fun _ => rfl]
  split
  · rfl
  · split
    · rfl
    · rfl

theorem pass2Step_ok (t : DayMap) (item : Sample)
    (h : hasParseableEnd item = true) :
    pass2Step t item = .ok (pass2StepP t item) := by
  obtain ⟨ms, hms⟩ := Option.isSome_iff_exists.mp h
  unfold pass2Step pass2StepP endDay
  rw [hms]
  simp only [Option.getD_some, dateKey]
  show Except.ok (jsDay ms) >>= _ = _
  rw [show ∀ f : ℤ → Except String DayMap,
    (Except.ok (jsDay ms) >>= f) = f (jsDay ms) from fun _ => rfl]
  rfl

theorem values_aset_cases {κ β : Type} [DecidableEq κ]
    (m : List (κ × β)) (k : κ) (v : β) :
    ∀ x ∈ (aset m k v).map Prod.snd, x ∈ m.map Prod.snd ∨ x = v := by
  induction m with
  | nil =>
    intro x hx
    simp [aset] at hx
    exact Or.inr hx
  | cons p rest ih =>
    intro x hx
    obtain ⟨k₀, v₀⟩ := p
    by_cases h : k₀ = k
    · simp only [aset, if_pos h, List.map_cons] at hx
      rcases List.mem_cons.mp hx with rfl | hx'
      · exact Or.inr rfl
      · exact Or.inl (List.mem_cons_of_mem _ hx')
    · simp only [aset, if_neg h, List.map_cons] at hx
      rcases List.mem_cons.mp hx with rfl | hx'
      · exact Or.inl (List.mem_cons_self _ _)
      · rcases ih x hx' with h' | h'
        · exact Or.inl (List.mem_cons_of_mem _ h')
        · exact Or.inr h'

theorem values_pass1StepP (m : GroupMap) (a : Sample) :
    ∀ x ∈ (pass1StepP m a).map Prod.snd, x ∈ m.map Prod.snd ∨ x = a := by
  intro x hx
  unfold pass1StepP at hx
  split at hx
  · rcases values_aset_cases m _ a x hx with h | h
    · exact Or.inl h
    · exact Or.inr h
  · split at hx
    · rcases values_aset_cases m _ a x hx with h | h
      · exact Or.inl h
      · exact Or.inr h
    · exact Or.inl hx

theorem pass1_values_from (list : List Sample) :
    ∀ (m₀ : GroupMap) (v : Sample),
      v ∈ (list.foldl pass1StepP m₀).map Prod.snd →
      v ∈ m₀.map Prod.snd ∨ v ∈ list := by
  induction list with
  | nil =>
    intro m₀ v hv
    exact Or.inl hv
  | cons a t ih =>
    intro m₀ v hv
    rw [List.foldl_cons] at hv
    rcases ih (pass1StepP m₀ a) v hv with h1 | h1
    · rcases values_pass1StepP m₀ a v h1 with h2 | h2
      · exact Or.inl h2
      · exact Or.inr (h2 ▸ List.mem_cons_self a t)
    · exact Or.inr (List.mem_cons_of_mem a h1)

/-- The first pass keeps, per `(device, day)` key, exactly the fold of
"keep the strictly later-ending sample" over that group's samples. -/
theorem pass1_lookup (list : List Sample) :
    ∀ (m₀ : GroupMap) (dev : String) (D : ℤ),
      (∀ it ∈ list, hasParseableEnd it = true) →
      alookup (list.foldl pass1StepP m₀) (dev, D) =
        ((samplesOn list D).filter fun it => it.device.deviceId == dev).foldl
          latestStep (alookup m₀ (dev, D)) := by
  induction list with
  | nil =>
    intro m₀ dev D _
    rfl
  | cons a t ih =>
    intro m₀ dev D hall
    have hallt : ∀ it ∈ t, hasParseableEnd it = true := fun it h =>
      hall it (List.mem_cons_of_mem a h)
    have ha : hasParseableEnd a = true := hall a (List.mem_cons_self a t)
    rw [List.foldl_cons, ih (pass1StepP m₀ a) dev D hallt]
    by_cases hrel : a.device.deviceId = dev ∧ endDay a = D
    · have hfil : ((samplesOn (a :: t) D).filter fun it => it.device.deviceId == dev) =
          a :: ((samplesOn t D).filter fun it => it.device.deviceId == dev) := by
        simp [samplesOn, List.filter_cons, ha, hrel.1, hrel.2]
      have hstep : alookup (pass1StepP m₀ a) (dev, D) =
          latestStep (alookup m₀ (dev, D)) a := by
        unfold pass1StepP latestStep
        rw [hrel.1, hrel.2]
        cases halk : alookup m₀ (dev, D) with
        | none => simp [alookup_aset_self]
        | some b =>
          by_cases hgt : jsDateGt a.sample.end_.parsed b.sample.end_.parsed
          · simp [hgt, alookup_aset_self]
          · simp [hgt, halk]
      rw [hfil, List.foldl_cons, hstep]
    · have hfil : ((samplesOn (a :: t) D).filter fun it => it.device.deviceId == dev) =
          (samplesOn t D).filter fun it => it.device.deviceId == dev := by
        by_cases hd : endDay a = D
        · have hdev : ¬(a.device.deviceId = dev) := fun hdd => hrel ⟨hdd, hd⟩
          simp [samplesOn, List.filter_cons, ha, hd, hdev]
        · simp [samplesOn, List.filter_cons, hd]
      have hne : ((a.device.deviceId, endDay a) : String × ℤ) ≠ (dev, D) := by
        intro hcon
        exact hrel ⟨congrArg Prod.fst hcon, congrArg Prod.snd hcon⟩
      have hstep : alookup (pass1StepP m₀ a) (dev, D) = alookup m₀ (dev, D) := by
        unfold pass1StepP
        split
        · exact alookup_aset_ne m₀ _ _ _ (Ne.symm hne)
        · split
          · exact alookup_aset_ne m₀ _ _ _ (Ne.symm hne)
          · rfl
      rw [hfil, hstep]

/-- On a store whose every sample has a parseable `end`, `buildDailyTotals`
succeeds and computes the pure two-pass fold. -/
theorem buildDailyTotals_eq_ok (list : List Sample)
    (hall : ∀ it ∈ list, hasParseableEnd it = true) :
    buildDailyTotals list =
      .ok (((list.foldl pass1StepP []).map Prod.snd).foldl pass2StepP []) := by
  unfold buildDailyTotals
  rw [foldlM_eq_ok list (fun a ha b => pass1Step_ok b a (hall a ha)) []]
  show (((list.foldl pass1StepP []).map Prod.snd).foldlM pass2Step []) = _
  exact foldlM_eq_ok _
    (fun a ha b => pass2Step_ok b a (by
      rcases pass1_values_from list [] a ha with h | h
      · simp at h
      · exact hall a h)) []

theorem foldl_latestStep_some :
    ∀ (l : List Sample) (b : Sample), ∃ v, l.foldl latestStep (some b) = some v := by
  intro l
  induction l with
  | nil => exact fun b => ⟨b, rfl⟩
  | cons a t ih =>
    intro b
    rw [List.foldl_cons]
    show ∃ v, t.foldl latestStep
      (if jsDateGt a.sample.end_.parsed b.sample.end_.parsed then some a else some b) = some v
    by_cases hgt : jsDateGt a.sample.end_.parsed b.sample.end_.parsed
    · rw [if_pos hgt]; exact ih a
    · rw [if_neg hgt]; exact ih b

theorem foldl_latestStep_from :
    ∀ (l : List Sample) (acc : Option Sample) (v : Sample),
      l.foldl latestStep acc = some v → acc = some v ∨ v ∈ l := by
  intro l
  induction l with
  | nil => exact fun acc v h => Or.inl h
  | cons a t ih =>
    intro acc v h
    rw [List.foldl_cons] at h
    rcases ih (latestStep acc a) v h with h1 | h1
    · cases acc with
      | none =>
        simp only [latestStep] at h1
        obtain rfl : a = v := by simpa using h1
        exact Or.inr (List.mem_cons_self a t)
      | some b =>
        simp only [latestStep] at h1
        by_cases hgt : jsDateGt a.sample.end_.parsed b.sample.end_.parsed
        · rw [if_pos hgt] at h1
          obtain rfl : a = v := by simpa using h1
          exact Or.inr (List.mem_cons_self a t)
        · rw [if_neg hgt] at h1
          exact Or.inl h1
    · exact Or.inr (List.mem_cons_of_mem a h1)

/-- A representative sample belongs to its day's samples and its device. -/
theorem latestFor_mem {list : List Sample} {D : ℤ} {dev : String} {v : Sample}
    (h : latestFor list D dev = some v) :
    v ∈ samplesOn list D ∧ v.device.deviceId = dev := by
  rcases foldl_latestStep_from _ none v h with h1 | h1
  · exact Option.noConfusion h1
  · have h2 := List.mem_filter.mp h1
    exact ⟨h2.1, by simpa using h2.2⟩

theorem mem_samplesOn {list : List Sample} {D : ℤ} {v : Sample} :
    v ∈ samplesOn list D ↔ v ∈ list ∧ hasParseableEnd v = true ∧ endDay v = D := by
  unfold samplesOn
  rw [List.mem_filter]
  simp [and_assoc]

/-- The representative exists exactly for the devices of `devicesOn`. -/
theorem latestFor_isSome_iff (list : List Sample) (D : ℤ) (dev : String) :
    (latestFor list D dev).isSome = true ↔ dev ∈ devicesOn list D := by
  have hmem : dev ∈ devicesOn list D ↔
      ∃ it ∈ samplesOn list D, it.device.deviceId = dev := by
    unfold devicesOn
    rw [List.mem_dedup, List.mem_map]
  rw [hmem]
  unfold latestFor
  cases hfil : (samplesOn list D).filter (fun it => it.device.deviceId == dev) with
  | nil =>
    simp only [List.foldl_nil]
    constructor
    · intro h
      exact absurd h (by simp)
    · rintro ⟨it, hit, hdev⟩
      have : it ∈ (samplesOn list D).filter fun it => it.device.deviceId == dev :=
        List.mem_filter.mpr ⟨hit, by simp [hdev]⟩
      rw [hfil] at this
      exact absurd this (List.not_mem_nil it)
  | cons a rest =>
    constructor
    · intro _
      have ha : a ∈ (samplesOn list D).filter fun it => it.device.deviceId == dev := by
        rw [hfil]
        exact List.mem_cons_self a rest
      have h2 := List.mem_filter.mp ha
      exact ⟨a, h2.1, by simpa using h2.2⟩
    · intro _
      rw [List.foldl_cons]
      show ((rest.foldl latestStep (latestStep none a)).isSome = true)
      obtain ⟨v, hv⟩ := foldl_latestStep_some rest a
      rw [show latestStep none a = some a from rfl, hv]
      rfl

/-- The first pass preserves key nodup-ness. -/
theorem pass1_keys_nodup (list : List Sample) :
    ∀ m₀ : GroupMap, (m₀.map Prod.fst).Nodup →
      (((list.foldl pass1StepP m₀).map Prod.fst)).Nodup := by
  induction list with
  | nil => exact fun m₀ h => h
  | cons a t ih =>
    intro m₀ h
    rw [List.foldl_cons]
    refine ih (pass1StepP m₀ a) ?_
    unfold pass1StepP
    split
    · exact nodupKeys_aset m₀ _ a h
    · split
      · exact nodupKeys_aset m₀ _ a h
      · exact h

/-- With distinct keys and keys determined by the values, the value list of
an association list has no duplicates. -/
theorem nodup_values_of_keyFn (M : GroupMap)
    (hk : ∀ p ∈ M, p.1 = (p.2.device.deviceId, endDay p.2))
    (hnd : (M.map Prod.fst).Nodup) : (M.map Prod.snd).Nodup := by
  refine List.Nodup.map_on ?_ (List.Nodup.of_map Prod.fst hnd)
  intro x hx y hy hxy
  exact Prod.ext (by rw [hk x hx, hk y hy, hxy]) hxy

/-- The second pass computes, per day, the sum of the measurements of the
iterated samples ending on that day (absent when there are none). -/
theorem pass2_lookup (vs : List Sample) :
    ∀ (t₀ : DayMap) (D : ℤ),
      alookup (vs.foldl pass2StepP t₀) D =
        (if (vs.filter fun it => decide (endDay it = D)).isEmpty then alookup t₀ D
         else some
           ⟨((alookup t₀ D).getD ⟨0, 0⟩).steps +
              (((vs.filter fun it => decide (endDay it = D)).map
                fun it => it.sample.steps).sum),
            ((alookup t₀ D).getD ⟨0, 0⟩).calories +
              (((vs.filter fun it => decide (endDay it = D)).map
                fun it => it.sample.calories).sum)⟩) := by
  induction vs with
  | nil =>
    intro t₀ D
    rfl
  | cons a rest ih =>
    intro t₀ D
    rw [List.foldl_cons, ih (pass2StepP t₀ a) D]
    by_cases ha : endDay a = D
    · have hlk : alookup (pass2StepP t₀ a) D =
          some ⟨((alookup t₀ D).getD ⟨0, 0⟩).steps + a.sample.steps,
                ((alookup t₀ D).getD ⟨0, 0⟩).calories + a.sample.calories⟩ := by
        unfold pass2StepP
        rw [ha, alookup_aset_self]
      have hfil : ((a :: rest).filter fun it => decide (endDay it = D)) =
          a :: (rest.filter fun it => decide (endDay it = D)) := by
        simp [List.filter_cons, ha]
      rw [hlk, hfil]
      by_cases hrest : (rest.filter fun it => decide (endDay it = D)).isEmpty
      · simp only [hrest, if_pos, List.isEmpty_cons]
        rw [if_neg (by simp)]
        have hrest' : (rest.filter fun it => decide (endDay it = D)) = [] :=
          List.isEmpty_iff.mp hrest
        simp [hrest']
      · rw [if_neg hrest, if_neg (by simp)]
        simp only [Option.getD_some, List.map_cons, List.sum_cons]
        refine congrArg some ?_
        refine congrArg₂ Totals.mk ?_ ?_ <;> ring
    · have hlk : alookup (pass2StepP t₀ a) D = alookup t₀ D := by
        unfold pass2StepP
        exact alookup_aset_ne t₀ _ _ _ (fun hc => ha hc.symm)
      have hfil : ((a :: rest).filter fun it => decide (endDay it = D)) =
          rest.filter fun it => decide (endDay it = D) := by
        simp [List.filter_cons, ha]
      rw [hlk, hfil]

theorem pass1Map_lookup (list : List Sample)
    (hall : ∀ it ∈ list, hasParseableEnd it = true) (dev : String) (D : ℤ) :
    alookup (pass1Map list) (dev, D) = latestFor list D dev := by
  have h := pass1_lookup list [] dev D hall
  unfold pass1Map latestFor
  rw [h]
  rfl

theorem pass1Map_keys_nodup (list : List Sample) :
    ((pass1Map list).map Prod.fst).Nodup :=
  pass1_keys_nodup list [] (by simp)

theorem pass1Map_keyFn (list : List Sample)
    (hall : ∀ it ∈ list, hasParseableEnd it = true) :
    ∀ p ∈ pass1Map list, p.1 = (p.2.device.deviceId, endDay p.2) := by
  rintro ⟨⟨dev, D⟩, v⟩ hp
  have halk : alookup (pass1Map list) (dev, D) = some v :=
    alookup_eq_some_of_mem (pass1Map_keys_nodup list) hp
  rw [pass1Map_lookup list hall dev D] at halk
  have hm := latestFor_mem halk
  have hday : endDay v = D := (mem_samplesOn.mp hm.1).2.2
  show (dev, D) = (v.device.deviceId, endDay v)
  rw [hm.2, hday]

theorem dayGroup_mem (list : List Sample)
    (hall : ∀ it ∈ list, hasParseableEnd it = true) (D : ℤ) (v : Sample) :
    v ∈ dayGroup list D ↔ ∃ dev, latestFor list D dev = some v := by
  unfold dayGroup pass1Values
  rw [List.mem_filter]
  constructor
  · rintro ⟨hv, hd⟩
    obtain ⟨k, hk⟩ := mem_values_iff.mp hv
    have hkk : k = (v.device.deviceId, endDay v) := pass1Map_keyFn list hall (k, v) hk
    have halk : alookup (pass1Map list) k = some v :=
      alookup_eq_some_of_mem (pass1Map_keys_nodup list) hk
    rw [hkk] at halk
    rw [pass1Map_lookup list hall] at halk
    have hday : endDay v = D := by simpa using hd
    rw [hday] at halk
    exact ⟨v.device.deviceId, halk⟩
  · rintro ⟨dev, hdev⟩
    have hm := latestFor_mem hdev
    have hday : endDay v = D := (mem_samplesOn.mp hm.1).2.2
    constructor
    · refine mem_values_iff.mpr ⟨(dev, D), mem_of_alookup_eq_some ?_⟩
      rw [pass1Map_lookup list hall]
      exact hdev
    · simp [hday]

theorem deviceReps_mem (list : List Sample) (D : ℤ) (v : Sample) :
    v ∈ deviceReps list D ↔ ∃ dev, latestFor list D dev = some v := by
  unfold deviceReps
  rw [List.mem_map]
  constructor
  · rintro ⟨dev, hdev, rfl⟩
    have hsome : (latestFor list D dev).isSome = true :=
      (latestFor_isSome_iff list D dev).mpr hdev
    obtain ⟨w, hw⟩ := Option.isSome_iff_exists.mp hsome
    refine ⟨dev, ?_⟩
    rw [hw]
    unfold latestGet
    rw [hw]
    rfl
  · rintro ⟨dev, hdev⟩
    refine ⟨dev, ?_, ?_⟩
    · exact (latestFor_isSome_iff list D dev).mp (by rw [hdev]; rfl)
    · unfold latestGet
      rw [hdev]
      rfl

theorem latestGet_deviceId (list : List Sample) (D : ℤ) :
    ∀ dev ∈ devicesOn list D, (latestGet list D dev).device.deviceId = dev := by
  intro dev hdev
  have hsome : (latestFor list D dev).isSome = true :=
    (latestFor_isSome_iff list D dev).mpr hdev
  obtain ⟨w, hw⟩ := Option.isSome_iff_exists.mp hsome
  unfold latestGet
  rw [hw]
  exact (latestFor_mem hw).2

theorem deviceReps_nodup (list : List Sample) (D : ℤ) :
    (deviceReps list D).Nodup := by
  refine List.Nodup.map_on ?_ (List.nodup_dedup _)
  intro x hx y hy hxy
  calc x = (latestGet list D x).device.deviceId := (latestGet_deviceId list D x hx).symm
    _ = (latestGet list D y).device.deviceId := by rw [hxy]
    _ = y := latestGet_deviceId list D y hy

theorem dayGroup_nodup (list : List Sample)
    (hall : ∀ it ∈ list, hasParseableEnd it = true) (D : ℤ) :
    (dayGroup list D).Nodup := by
  unfold dayGroup pass1Values
  exact (nodup_values_of_keyFn (pass1Map list) (pass1Map_keyFn list hall)
    (pass1Map_keys_nodup list)).filter _

theorem dayGroup_perm (list : List Sample)
    (hall : ∀ it ∈ list, hasParseableEnd it = true) (D : ℤ) :
    (dayGroup list D).Perm (deviceReps list D) := by
  refine List.Subperm.antisymm ?_ ?_
  · refine List.Nodup.subperm (dayGroup_nodup list hall D) ?_
    intro v hv
    exact (deviceReps_mem list D v).mpr ((dayGroup_mem list hall D v).mp hv)
  · refine List.Nodup.subperm (deviceReps_nodup list D) ?_
    intro v hv
    exact (dayGroup_mem list hall D v).mpr ((deviceReps_mem list D v).mp hv)

/-- C3: on any store whose samples' `end` timestamps parse, the daily
aggregate for UTC day `D` exists exactly when some sample ends on `D`, and
equals the sum over the distinct devices with samples on `D` of the steps
(resp. calories) of that device's latest-ending sample on `D`.  Hence two
devices with one sample each on a day contribute additively
(`100 + 200 = 300`), while two samples of one device on a day contribute
only the later-ending sample's values (`200`, not `300`). -/
theorem C3_daily_aggregation :
    (∀ list : List Sample, (∀ it ∈ list, hasParseableEnd it = true) →
      ∃ T, buildDailyTotals list = .ok T ∧
        ∀ D : ℤ, alookup T D =
          (if devicesOn list D = [] then none
           else some
             ⟨((devicesOn list D).map fun dev => latestSteps list D dev).sum,
              ((devicesOn list D).map fun dev => latestCalories list D dev).sum⟩)) ∧
    buildDailyTotals [mkSample "A" 100 10 5, mkSample "B" 200 20 7] =
      .ok [(0, ⟨300, 30⟩)] ∧
    buildDailyTotals [mkSample "A" 100 10 5, mkSample "A" 200 20 7] =
      .ok [(0, ⟨200, 20⟩)] := by
  refine ⟨?_, ?_, ?_⟩
  · intro list hall
    refine ⟨_, buildDailyTotals_eq_ok list hall, ?_⟩
    intro D
    have hp2 := pass2_lookup ((pass1Map list).map Prod.snd) [] D
    have hdg : (((pass1Map list).map Prod.snd).filter fun it => decide (endDay it = D)) =
        dayGroup list D := rfl
    rw [hdg] at hp2
    show alookup (((pass1Map list).map Prod.snd).foldl pass2StepP []) D = _
    rw [hp2]
    by_cases hdev : devicesOn list D = []
    · have hB : deviceReps list D = [] := by
        unfold deviceReps
        rw [hdev]
        rfl
      have hA : dayGroup list D = [] := (hB ▸ dayGroup_perm list hall D).eq_nil
      rw [if_pos (by rw [hA]; rfl), if_pos hdev]
      rfl
    · have hBne : deviceReps list D ≠ [] := by
        unfold deviceReps
        intro h
        exact hdev (List.map_eq_nil_iff.mp h)
      have hAne : ¬((dayGroup list D).isEmpty = true) := by
        intro h
        have h1 : dayGroup list D = [] := List.isEmpty_iff.mp h
        have h2 : (deviceReps list D).Perm [] := (h1 ▸ dayGroup_perm list hall D).symm
        exact hBne h2.eq_nil
      rw [if_neg hAne, if_neg hdev]
      have hsum_s : ((dayGroup list D).map fun it => it.sample.steps).sum =
          ((devicesOn list D).map fun dev => latestSteps list D dev).sum := by
        rw [((dayGroup_perm list hall D).map fun it => it.sample.steps).sum_eq]
        unfold deviceReps
        rw [List.map_map]
        refine congrArg List.sum (List.map_congr_left ?_)
        intro dev hdev'
        have hsome := (latestFor_isSome_iff list D dev).mpr hdev'
        obtain ⟨w, hw⟩ := Option.isSome_iff_exists.mp hsome
        show (latestGet list D dev).sample.steps = latestSteps list D dev
        unfold latestGet latestSteps
        rw [hw]
        rfl
      have hsum_c : ((dayGroup list D).map fun it => it.sample.calories).sum =
          ((devicesOn list D).map fun dev => latestCalories list D dev).sum := by
        rw [((dayGroup_perm list hall D).map fun it => it.sample.calories).sum_eq]
        unfold deviceReps
        rw [List.map_map]
        refine congrArg List.sum (List.map_congr_left ?_)
        intro dev hdev'
        have hsome := (latestFor_isSome_iff list D dev).mpr hdev'
        obtain ⟨w, hw⟩ := Option.isSome_iff_exists.mp hsome
        show (latestGet list D dev).sample.calories = latestCalories list D dev
        unfold latestGet latestCalories
        rw [hw]
        rfl
      rw [show alookup ([] : DayMap) D = none from rfl]
      simp only [Option.getD_none]
      rw [hsum_s, hsum_c]
      refine congrArg some ?_
      refine congrArg₂ Totals.mk ?_ ?_ <;> simp
  · simp +decide [buildDailyTotals, pass1Step, pass2Step, dateKey, jsDay, msPerDay, mkSample,
      okTs, alookup, aset, jsDateGt, List.foldlM, bind, Except.bind, pure, Except.pure,
      Int.fdiv]
    norm_num
  · simp +decide [buildDailyTotals, pass1Step, pass2Step, dateKey, jsDay, msPerDay, mkSample,
      okTs, alookup, aset, jsDateGt, List.foldlM, bind, Except.bind, pure, Except.pure,
      Int.fdiv]

/-- C3 witness: a store with two devices on day 0 and a second, later sample
for device A; the general characterization applies to it. -/
theorem C3_daily_aggregation_witness :
    ∃ T, buildDailyTotals
        [mkSample "A" 100 10 5, mkSample "B" 200 20 7, mkSample "A" 50 5 9] = .ok T ∧
      ∀ D : ℤ, alookup T D =
        (if devicesOn
            [mkSample "A" 100 10 5, mkSample "B" 200 20 7, mkSample "A" 50 5 9] D = []
         then none
         else some
           ⟨((devicesOn
                [mkSample "A" 100 10 5, mkSample "B" 200 20 7, mkSample "A" 50 5 9] D).map
              fun dev => latestSteps
                [mkSample "A" 100 10 5, mkSample "B" 200 20 7, mkSample "A" 50 5 9] D dev).sum,
            ((devicesOn
                [mkSample "A" 100 10 5, mkSample "B" 200 20 7, mkSample "A" 50 5 9] D).map
              fun dev => latestCalories
                [mkSample "A" 100 10 5, mkSample "B" 200 20 7, mkSample "A" 50 5 9] D dev).sum⟩) :=
  C3_daily_aggregation.1
    [mkSample "A" 100 10 5, mkSample "B" 200 20 7, mkSample "A" 50 5 9] (by decide)

/-! ## C1: totality of the engine -/

/-- C1 counterexample: a store holding one sample whose `end` string does not
parse makes `dateKey` (`new Date(...).toISOString()`) throw a `RangeError`,
so daily aggregation — and with it summary composition — raises instead of
returning a degenerate-but-defined result. -/
theorem C1_counterexample :
    buildDailyTotals [badEndSample] = .error "RangeError: Invalid time value" ∧
    buildSummaryPayload defaultGoals 0 [badEndSample] =
      .error "RangeError: Invalid time value" := by
  exact ⟨rfl, rfl⟩

/-- C1 amended: every aggregation-engine operation is total on stores whose
samples' `end` timestamps all parse — `computeStreak`, `buildInsights` and
`linearForecast` are total functions outright, and `buildDailyTotals` and
`buildSummaryPayload` return a defined result; an unparseable `start` is
never parsed by the engine and is harmless.  Only an unparseable `end` makes
aggregation (and summary composition) throw. -/
theorem C1_amended_totality (g : Goals) (today : ℤ) (metrics : List Sample)
    (hall : ∀ it ∈ metrics, hasParseableEnd it = true) :
    (∃ T, buildDailyTotals metrics = .ok T) ∧
    (∃ p, buildSummaryPayload g today metrics = .ok p) := by
  refine ⟨⟨_, buildDailyTotals_eq_ok metrics hall⟩, ?_⟩
  unfold buildSummaryPayload
  rw [buildDailyTotals_eq_ok metrics hall]
  exact ⟨_, rfl⟩

/-- C1 amended witness: a store whose only sample has an unparseable `start`
(but a parseable `end`) is aggregated and summarized without error. -/
theorem C1_amended_totality_witness :
    (∃ T, buildDailyTotals [badStartSample] = .ok T) ∧
    (∃ p, buildSummaryPayload defaultGoals 0 [badStartSample] = .ok p) :=
  C1_amended_totality defaultGoals 0 [badStartSample] (by decide)

end SCC
